import Mathlib

/-!
Verification of the WHATWG-style URL parser of this repository
(`src/url_parse.cpp`, `src/url_parser_context.cpp`) against its
natural-language specification.

The parser works on bytes; we model bytes as natural numbers below 256 and
byte strings as `List Nat`.  Components whose source is absent from the
repository snapshot (the `url_record` data type, the scheme registry, the
percent codec, the serializer and the small context-iterator helpers) are
modelled from the specification and are marked as such in their doc
comments; everything else is transliterated from the C++ source.
-/

namespace UrlVerify

/-- Bytes of an ASCII string, for concrete test inputs. -/
def bytes (s : String) : List Nat := s.data.map Char.toNat

/-- C-locale `isspace`: space, tab, line feed, vertical tab, form feed,
carriage return. -/
def isspaceC (b : Nat) : Bool := b = 32 || b = 9 || b = 10 || b = 11 || b = 12 || b = 13

/-- ASCII decimal digit. -/
def isDigitB (b : Nat) : Bool := 48 ≤ b && b ≤ 57

/-- ASCII letter. -/
def isAlphaB (b : Nat) : Bool := (65 ≤ b && b ≤ 90) || (97 ≤ b && b ≤ 122)

/-- ASCII alphanumeric. -/
def isAlnumB (b : Nat) : Bool := isDigitB b || isAlphaB b

/-- ASCII hexadecimal digit. -/
def isXdigitB (b : Nat) : Bool := isDigitB b || (65 ≤ b && b ≤ 70) || (97 ≤ b && b ≤ 102)

/-- C-locale `tolower`: map A-Z to a-z, leave everything else. -/
def tolowerB (b : Nat) : Nat := if 65 ≤ b && b ≤ 90 then b + 32 else b

/-- Numeric value of a hexadecimal digit (`hex_to_dec` in the source). -/
def hex_to_dec (b : Nat) : Nat :=
  let l := tolowerB b
  if isDigitB l then l - 48 else l - 97 + 10

/-- Value of a digit in radix `r` (10, 8 or 16), `none` if the byte is not a
digit of that radix. -/
def digitValInRadix (r b : Nat) : Option Nat :=
  if r = 16 then
    if isXdigitB b then some (hex_to_dec b) else none
  else
    if isDigitB b && b - 48 < r then some (b - 48) else none

/-- Uppercase hexadecimal digit for a value below 16. -/
def hexDigitUpper (v : Nat) : Nat := if v < 10 then v + 48 else v - 10 + 65

/-- Modelled from the spec: `pct_encode_char` (its definition lives in
`skyr/url/details/encode.hpp`, absent from the snapshot).  Per section 4.1,
a byte below 0x20 or above 0x7E is always emitted as an uppercase `%XX`
escape, a byte in the caller-supplied escape set likewise, and any other
byte is emitted verbatim. -/
def pct_encode_char (b : Nat) (includes : List Nat) : List Nat :=
  if b < 32 || b > 126 || includes.contains b then
    [37, hexDigitUpper (b / 16 % 16), hexDigitUpper (b % 16)]
  else
    [b]

/-- Modelled from the spec: `pct_decode` (its definition lives in
`skyr/url/details/decode.hpp`, absent from the snapshot).  Per section 4.1
it scans left to right, replaces `%` followed by two hexadecimal digits by
the decoded byte, passes a `%` not so followed through verbatim, and never
aborts. -/
def pct_decode : List Nat → List Nat
  | [] => []
  | 37 :: h1 :: h2 :: rest =>
      if isXdigitB h1 && isXdigitB h2 then
        (hex_to_dec h1 * 16 + hex_to_dec h2) :: pct_decode rest
      else
        37 :: pct_decode (h1 :: h2 :: rest)
  | b :: rest => b :: pct_decode rest

/-! ## IPv4 parsing (`parse_ipv4_number`, `parse_ipv4_address`) -/

/-- Longest prefix of radix-`r` digits and the remaining suffix. -/
def takeDigitsInRadix (r : Nat) : List Nat → (List Nat × List Nat)
  | [] => ([], [])
  | b :: rest =>
      match digitValInRadix r b with
      | some _ =>
          let (ds, tl) := takeDigitsInRadix r rest
          (b :: ds, tl)
      | none => ([], b :: rest)

/-- Numeric value of a digit string in radix `r`. -/
def digitsVal (r : Nat) (ds : List Nat) : Nat :=
  ds.foldl (fun acc b => acc * r + ((digitValInRadix r b).getD 0)) 0

/-- Model of `std::stoul(s, nullptr, R)` as used by `parse_ipv4_number`:
skip C-locale whitespace, consume an optional sign, for radix 16 consume an
optional `0x`/`0X` prefix when a hexadecimal digit follows, then read the
longest run of radix digits.  `none` when no digits were consumed
(`std::invalid_argument`) or when the value exceeds the range of
`unsigned long` (`std::out_of_range`); a minus sign negates in 64-bit
unsigned arithmetic. -/
def stoulModel (s : List Nat) (r : Nat) : Option Nat :=
  let s1 := s.dropWhile isspaceC
  let sgn : Bool × List Nat :=
    match s1 with
    | b :: tl =>
        if b = 43 then (false, tl)
        else if b = 45 then (true, tl)
        else (false, b :: tl)
    | [] => (false, [])
  let s3 :=
    if r = 16 then
      match sgn.2 with
      | b :: x :: d :: tl =>
          if b = 48 ∧ (x = 120 ∨ x = 88) ∧ isXdigitB d then d :: tl
          else b :: x :: d :: tl
      | other => other
    else sgn.2
  let ds := (takeDigitsInRadix r s3).1
  if ds = [] then none
  else
    let v := digitsVal r ds
    if v ≥ 2 ^ 64 then none
    else if sgn.1 then some ((2 ^ 64 - v) % 2 ^ 64) else some v

/-- Radix selection and prefix stripping of `parse_ipv4_number`
(url_parser_context.cpp lines 256-265). -/
def ipv4_radix_strip (input : List Nat) : Nat × List Nat :=
  if 2 ≤ input.length ∧ input.getD 0 0 = 48 ∧ tolowerB (input.getD 1 0) = 120 then
    (16, input.drop 2)
  else if 2 ≤ input.length ∧ input.getD 0 0 = 48 then
    (8, input.drop 1)
  else
    (10, input)

/-- `parse_ipv4_number` (url_parser_context.cpp lines 253-278): choose the
radix, strip the prefix, return 0 for an empty remainder, otherwise parse
with `std::stoul`; a thrown exception becomes `none`. -/
def parse_ipv4_number (input : List Nat) : Option Nat :=
  let (r, s) := ipv4_radix_strip input
  if s = [] then some 0 else stoulModel s r

/-- Split on `.` exactly as the loop of `parse_ipv4_address` does
(url_parser_context.cpp lines 283-292): start with one empty part, a dot
opens a new part, any other byte is appended to the last part. -/
def dotSplit (input : List Nat) : List (List Nat) :=
  input.foldl
    (fun parts ch =>
      if ch = 46 then parts ++ [[]]
      else parts.dropLast ++ [parts.getLast! ++ [ch]])
    [[]]

/-- The `parts` list after the single trailing empty part is discarded
(url_parser_context.cpp lines 294-299). -/
def ipv4Parts (input : List Nat) : List (List Nat) :=
  let parts := dotSplit input
  if parts.getLast! = [] ∧ parts.length > 1 then parts.dropLast else parts

/-- The per-part number loop of `parse_ipv4_address` (lines 307-318):
`none` when some part is empty or fails to parse as a number, in which
case the address parser returns the input unchanged. -/
def ipv4Numbers : List (List Nat) → Option (List Nat)
  | [] => some []
  | p :: rest =>
      if p = [] then none
      else
        match parse_ipv4_number p with
        | none => none
        | some v =>
            match ipv4Numbers rest with
            | none => none
            | some vs => some (v :: vs)

/-- The validation and folding stage of `parse_ipv4_address`
(url_parser_context.cpp lines 324-359): fail when a number other than the
last exceeds 255 or when the last is at least `256^(5-n)`; otherwise fold
the numbers into a single 32-bit value. -/
def ipv4_fold (numbers : List Nat) : Option Nat :=
  if numbers.dropLast.any (fun v => v > 255) then none
  else if numbers.getLastD 0 ≥ 256 ^ (5 - numbers.length) then none
  else
    some (numbers.getLastD 0 +
      ((List.range (numbers.length - 1)).map
        (fun i => numbers.getD i 0 * 256 ^ (3 - i))).sum)

/-- Decimal digits of a natural number. -/
def decimalBytes (n : Nat) : List Nat := (Nat.toDigits 10 n).map Char.toNat

/-- Modelled from the spec: `ipv4_address::to_string` (the `ipv4_address`
class is absent from the snapshot).  Per section 4.2 the 32-bit value is
emitted as four dotted decimal octets in network byte order. -/
def ipv4_to_string (v : Nat) : List Nat :=
  decimalBytes (v / 2 ^ 24 % 256) ++ [46] ++
  decimalBytes (v / 2 ^ 16 % 256) ++ [46] ++
  decimalBytes (v / 2 ^ 8 % 256) ++ [46] ++
  decimalBytes (v % 256)

/-- `parse_ipv4_address` (url_parser_context.cpp lines 280-360).
`none` is parse failure; `some` of the unchanged input is the fall back to
a domain string; otherwise the folded value is rendered in dotted decimal. -/
def parse_ipv4_address (input : List Nat) : Option (List Nat) :=
  let parts := ipv4Parts input
  if parts.length > 4 then some input
  else
    match ipv4Numbers parts with
    | none => some input
    | some numbers =>
        match ipv4_fold numbers with
        | none => none
        | some v => some (ipv4_to_string v)

/-! ## URL record, scheme registry -/

/-- Modelled from the spec: the `url_record` data type (its header is absent
from the snapshot).  Fields per section 3; the advisory `validation_error`
flag lives on the parser context in the source and is kept there. -/
structure url_record where
  scheme : List Nat := []
  username : List Nat := []
  password : List Nat := []
  host : Option (List Nat) := none
  port : Option Nat := none
  path : List (List Nat) := []
  query : Option (List Nat) := none
  fragment : Option (List Nat) := none
  cannot_be_a_base_url : Bool := false
  deriving Repr, DecidableEq

/-- Modelled from the spec: the special-scheme set of the scheme registry
(section 2, C1; `url_schemes.cpp` is absent from the snapshot). -/
def is_special (scheme : List Nat) : Bool :=
  scheme = bytes "ftp" || scheme = bytes "file" || scheme = bytes "http" ||
  scheme = bytes "https" || scheme = bytes "ws" || scheme = bytes "wss"

/-- Modelled from the spec: the default-port table of the scheme registry
(`{ftp→21, file→none, http→80, https→443, ws→80, wss→443}`). -/
def default_port (scheme : List Nat) : Option Nat :=
  if scheme = bytes "ftp" then some 21
  else if scheme = bytes "http" then some 80
  else if scheme = bytes "https" then some 443
  else if scheme = bytes "ws" then some 80
  else if scheme = bytes "wss" then some 443
  else none

/-- Modelled from the spec: `is_default_port(scheme, port)` compares the
port with the registry entry for the scheme. -/
def is_default_port (scheme : List Nat) (port : Nat) : Bool :=
  match default_port scheme with
  | some p => p = port
  | none => false

/-- `url_record::is_special()`: membership of the scheme in the special
set. -/
def url_record.is_special_rec (u : url_record) : Bool := is_special u.scheme

/-- `url_record::includes_credentials()`: a nonempty username or
password. -/
def url_record.includes_credentials (u : url_record) : Bool :=
  u.username ≠ [] || u.password ≠ []

/-! ## Character and segment predicates of `url_parser_context.cpp` -/

/-- `is_forbidden_host_point` (lines 68-72): the sixteen bytes of
`"\0\t\n\r #%/:?@[\\]"` together with the string terminator. -/
def is_forbidden_host_point (b : Nat) : Bool :=
  b = 0 || b = 9 || b = 10 || b = 13 || b = 32 || b = 35 || b = 37 || b = 47 ||
  b = 58 || b = 63 || b = 64 || b = 91 || b = 92 || b = 93

/-- `is_url_code_point` (lines 450-453): ASCII alphanumeric or a member of
the literal `"!$&'()*+,-./:/=?@_~"` (codes below; note the duplicated
slash where the WHATWG list has a semicolon). -/
def is_url_code_point (b : Nat) : Bool :=
  isAlnumB b ||
  [33, 36, 38, 39, 40, 41, 42, 43, 44, 45, 46, 47, 58, 47, 61, 63, 64, 95, 126].contains b

/-- `is_windows_drive_letter` on a byte sequence starting at a position
(lines 455-468): at least two bytes remain, the first is a letter and the
second is `:` or `|`. -/
def is_windows_drive_letter_at (l : List Nat) (i : Nat) : Bool :=
  decide (i + 2 ≤ l.length) && isAlphaB (l.getD i 0) &&
  (l.getD (i + 1) 0 = 58 || l.getD (i + 1) 0 = 124)

/-- `is_windows_drive_letter` on a whole segment (lines 470-473). -/
def is_windows_drive_letter (segment : List Nat) : Bool :=
  is_windows_drive_letter_at segment 0

/-- `is_single_dot_path_segment` (lines 475-481): the lowercased segment is
`.` or `%2e`. -/
def is_single_dot_path_segment (segment : List Nat) : Bool :=
  let lower := segment.map tolowerB
  lower = [46] || lower = bytes "%2e"

/-- `is_double_dot_path_segment` (lines 507-517): the lowercased segment is
`..`, `.%2e`, `%2e.` or `%2e%2e`. -/
def is_double_dot_path_segment (segment : List Nat) : Bool :=
  let lower := segment.map tolowerB
  lower = [46, 46] || lower = bytes ".%2e" || lower = bytes "%2e." || lower = bytes "%2e%2e"

/-- `shorten_path` (lines 519-531): no-op on an empty path and on a `file`
URL whose path is a single segment recognized as a Windows drive letter;
otherwise drop the last segment. -/
def shorten_path (scheme : List Nat) (path : List (List Nat)) : List (List Nat) :=
  if path = [] then path
  else if scheme = bytes "file" ∧ path.length = 1 ∧ is_windows_drive_letter (path.headD []) then
    path
  else path.dropLast

/-- `is_valid_port` (lines 439-448): `std::strtoul` must consume the whole
buffer, consume at least one character, and produce a value strictly below
`std::numeric_limits<std::uint16_t>::max()` (that is, strictly below
65535). -/
def is_valid_port (port : List Nat) : Bool :=
  let (ds, tl) := takeDigitsInRadix 10 port
  tl = [] && ds ≠ [] && digitsVal 10 ds < 65535

/-- `std::atoi` on the digit buffer accepted by `is_valid_port`. -/
def atoiModel (port : List Nat) : Nat := digitsVal 10 (takeDigitsInRadix 10 port).1

/-! ## Input access: positions and lookahead -/

/-- Byte of the sanitized buffer at a (signed) position; outside the buffer
the NUL terminator of the backing `std::string` is read. -/
def byteAt (l : List Nat) (p : Int) : Nat :=
  if 0 ≤ p ∧ p < (l.length : Int) then l.getD p.toNat 0 else 0

/-- Loop of `remaining_starts_with` (lines 74-96): compare the bytes from a
position with the expected characters; the byte is dereferenced before the
end-of-input test, and running out of input succeeds only together with the
pattern. -/
def rsw_loop (input : List Nat) : Int → List Nat → Bool
  | _, [] => true
  | p, ch :: rest =>
      if byteAt input p = ch then
        if p + 1 = (input.length : Int) then rest = []
        else rsw_loop input (p + 1) rest
      else false

/-- `remaining_starts_with(it, last, chars)`: the comparison starts one past
the iterator position. -/
def remaining_starts_with (input : List Nat) (p : Int) (chars : List Nat) : Bool :=
  rsw_loop input (p + 1) chars

/-- `is_pct_encoded(it, last, locale)` (lines 483-505): a `%` at the
position followed by two hexadecimal digits, all within bounds. -/
def is_pct_encoded (input : List Nat) (p : Int) : Bool :=
  if p = (input.length : Int) then false
  else if byteAt input p = 37 then
    if ¬ (p + 1 = (input.length : Int)) then
      if isXdigitB (byteAt input (p + 1)) then
        if ¬ (p + 2 = (input.length : Int)) then isXdigitB (byteAt input (p + 2))
        else false
      else false
    else false
  else false

/-! ## IPv6 parsing (`parse_ipv6_address`) -/

/-- The embedded-IPv4 digit loop of `parse_ipv6_address` (lines 189-207):
accumulate decimal digits into the optional piece, rejecting a leading zero
followed by more digits and values above 255. -/
def ipv6_ipv4_digits (v : List Nat) : Nat → Int → Option Nat → Option (Nat × Int)
  | 0, _, _ => none
  | fuel + 1, p, piece =>
      if isDigitB (byteAt v p) then
        let number := byteAt v p - 48
        match piece with
        | none => ipv6_ipv4_digits v fuel (p + 1) (some number)
        | some pv =>
            if pv = 0 then none
            else if pv * 10 + number > 255 then none
            else ipv6_ipv4_digits v fuel (p + 1) (some (pv * 10 + number))
      else
        match piece with
        | none => none
        | some pv => some (pv, p)

/-- The embedded-IPv4 group loop of `parse_ipv6_address` (lines 172-215):
read up to four dot-separated decimal groups, packing each pair of groups
into one 16-bit piece. -/
def ipv6_ipv4_loop (v : List Nat) :
    Nat → Int → List Nat → Nat → Nat → Option (List Nat × Nat × Nat)
  | 0, _, _, _, _ => none
  | fuel + 1, p, address, piece_index, numbers_seen =>
      if p = (v.length : Int) then some (address, piece_index, numbers_seen)
      else
        let step1 : Option Int :=
          if numbers_seen > 0 then
            if byteAt v p = 46 ∧ numbers_seen < 4 then some (p + 1) else none
          else some p
        match step1 with
        | none => none
        | some p1 =>
            if ¬ isDigitB (byteAt v p1) then none
            else
              match ipv6_ipv4_digits v (v.length + 2) p1 none with
              | none => none
              | some (pv, p2) =>
                  let address1 := address.set piece_index
                    (address.getD piece_index 0 * 256 + pv)
                  let ns1 := numbers_seen + 1
                  let pi1 := if ns1 = 2 ∨ ns1 = 4 then piece_index + 1 else piece_index
                  ipv6_ipv4_loop v fuel p2 address1 pi1 ns1

/-- The hexadecimal-piece loop of `parse_ipv6_address` (lines 148-155). -/
def ipv6_hex_digits (v : List Nat) : Nat → Int → Nat → Nat → (Nat × Nat × Int)
  | 0, p, value, length => (value, length, p)
  | fuel + 1, p, value, length =>
      if length < 4 ∧ isXdigitB (byteAt v p) then
        ipv6_hex_digits v fuel (p + 1) (value * 16 + hex_to_dec (byteAt v p)) (length + 1)
      else (value, length, p)

/-- The main loop of `parse_ipv6_address` (lines 130-235). -/
def ipv6_main_loop (v : List Nat) :
    Nat → Int → List Nat → Nat → Option Nat → Option (List Nat × Nat × Option Nat)
  | 0, _, _, _, _ => none
  | fuel + 1, p, address, piece_index, compress =>
      if p = (v.length : Int) then some (address, piece_index, compress)
      else if piece_index = 8 then none
      else if byteAt v p = 58 then
        if compress.isSome then none
        else ipv6_main_loop v fuel (p + 1) address (piece_index + 1) (some (piece_index + 1))
      else
        let (value, length, p1) := ipv6_hex_digits v 4 p 0 0
        if byteAt v p1 = 46 then
          if length = 0 then none
          else
            let p2 := p1 - (length : Int)
            if piece_index > 6 then none
            else
              match ipv6_ipv4_loop v (2 * v.length + 4) p2 address piece_index 0 with
              | none => none
              | some (address1, pi1, numbers_seen) =>
                  if numbers_seen ≠ 4 then none
                  else some (address1, pi1, compress)
        else if byteAt v p1 = 58 then
          if p1 + 1 = (v.length : Int) then none
          else ipv6_main_loop v fuel (p1 + 1)
            (address.set piece_index value) (piece_index + 1) compress
        else if p1 ≠ (v.length : Int) then none
        else ipv6_main_loop v fuel p1 (address.set piece_index value) (piece_index + 1) compress

/-- The compression right-shift after the main loop (lines 237-248). -/
def ipv6_swap_loop : Nat → List Nat → Nat → Nat → Nat → List Nat
  | 0, address, _, _, _ => address
  | fuel + 1, address, piece_index, compress, swaps =>
      if piece_index ≠ 0 ∧ swaps > 0 then
        let i := piece_index
        let j := compress + swaps - 1
        let ai := address.getD i 0
        let aj := address.getD j 0
        ipv6_swap_loop fuel ((address.set i aj).set j ai) (piece_index - 1) compress (swaps - 1)
      else address

/-- `parse_ipv6_address` (url_parser_context.cpp lines 110-251), producing
the eight 16-bit pieces. -/
def parse_ipv6_address (v : List Nat) : Option (List Nat) :=
  let start : Option (Int × Nat × Option Nat) :=
    if byteAt v 0 = 58 then
      if ¬ remaining_starts_with v 0 [58] then none
      else some (2, 1, some 1)
    else some (0, 0, none)
  match start with
  | none => none
  | some (p0, pi0, compress0) =>
      match ipv6_main_loop v (2 * v.length + 4) p0 (List.replicate 8 0) pi0 compress0 with
      | none => none
      | some (address, piece_index, compress) =>
          match compress with
          | some cv => some (ipv6_swap_loop 8 address 7 cv (piece_index - cv))
          | none => if piece_index ≠ 8 then none else some address

/-- Lowercase hexadecimal digits of a 16-bit piece. -/
def hexBytesLower (n : Nat) : List Nat := (Nat.toDigits 16 n).map Char.toNat

/-- Length of the run of zero pieces starting at an index. -/
def zeroRunLen (a : List Nat) : Nat → Nat
  | i => if h : i < a.length then
      if a.getD i 0 = 0 then zeroRunLen a (i + 1) + 1 else 0
    else 0
  termination_by i => a.length - i

/-- Leftmost longest zero run of the eight pieces. -/
def bestZeroRun (a : List Nat) : Nat × Nat :=
  (List.range a.length).foldl
    (fun best i => if zeroRunLen a i > best.2 then (i, zeroRunLen a i) else best)
    (0, 0)

/-- Join byte strings with a separator byte. -/
def joinSep (sep : Nat) : List (List Nat) → List Nat
  | [] => []
  | [x] => x
  | x :: rest => x ++ [sep] ++ joinSep sep rest

/-- Modelled from the spec: `ipv6_address::to_string` (the class is absent
from the snapshot).  Per section 4.3 the serialization compresses the
leftmost longest run of at least two zero pieces with `::` and prints the
pieces as lowercase hexadecimal without leading zeros. -/
def ipv6_to_string (a : List Nat) : List Nat :=
  let (bi, bl) := bestZeroRun a
  if bl ≥ 2 then
    joinSep 58 ((a.take bi).map hexBytesLower) ++ [58, 58] ++
    joinSep 58 ((a.drop (bi + bl)).map hexBytesLower)
  else
    joinSep 58 (a.map hexBytesLower)

/-! ## Host parsing -/

/-- `parse_opaque_host` (lines 362-381): fail on a forbidden byte (the set
here lacks `%`), otherwise percent-encode every byte with the default
set. -/
def parse_opaque_host (input : List Nat) : Option (List Nat) :=
  if input.any (fun b =>
      b = 0 || b = 9 || b = 10 || b = 13 || b = 32 || b = 35 || b = 47 ||
      b = 58 || b = 63 || b = 64 || b = 91 || b = 92 || b = 93) then none
  else some ((input.map (fun b => pct_encode_char b [])).flatten)

/-- `domain_to_ascii` (lines 383-392): the fallback lowercasing transform. -/
def domain_to_ascii (l : List Nat) : List Nat := l.map tolowerB

/-- `parse_host` (url_parser_context.cpp lines 394-437).  A leading `[`
requires a closing `]` and delegates to IPv6; a non-special host goes to
the opaque parser; otherwise the input is percent-decoded, lowercased,
checked for forbidden bytes and then offered to the IPv4 parser (whose
fallback returns the domain itself). -/
def parse_host (input : List Nat) (is_not_special : Bool) : Option (List Nat) :=
  if byteAt input 0 = 91 then
    if byteAt input ((input.length : Int) - 1) ≠ 93 then none
    else
      match parse_ipv6_address ((input.drop 1).dropLast) with
      | some a => some (ipv6_to_string a)
      | none => none
  else if is_not_special then parse_opaque_host input
  else
    let domain := pct_decode input
    let ascii_domain := domain_to_ascii domain
    if ascii_domain.any is_forbidden_host_point then none
    else parse_ipv4_address ascii_domain

/-! ## The parser state machine -/

/-- The parser states driven by `basic_parse` (`url_state.hpp` /
`url_parse_state.hpp`, declared outside the snapshot; the set of states is
fixed by the dispatch table in url_parse.cpp lines 29-113). -/
inductive url_state where
  | scheme_start | scheme | no_scheme
  | special_relative_or_authority | path_or_authority
  | relative | relative_slash
  | special_authority_slashes | special_authority_ignore_slashes
  | authority | host | hostname | port
  | file | file_slash | file_host
  | path_start | path | cannot_be_a_base_url_path
  | query | fragment
  deriving Repr, DecidableEq

/-- Modelled from the spec: the handler result type (section 4.6.2: a
handler yields `increment`, `continue`, `success` or `fail`; per the driver
contract `fail` terminates the parse with an error). -/
inductive url_parse_action where
  | success | increment | continue_ | fail
  deriving Repr, DecidableEq

/-- The parser context (`url_parser_context`, constructor at
url_parser_context.cpp lines 538-559).  The iterator is a signed position
into the sanitized input; `it == end` is `pos = input.length`. -/
structure Ctx where
  input : List Nat
  base : Option url_record
  url : url_record
  state : url_state
  state_override : Option url_state
  buffer : List Nat
  at_flag : Bool
  square_braces_flag : Bool
  password_token_seen_flag : Bool
  validation_error : Bool
  pos : Int
  deriving Repr, DecidableEq

/-- `is_eof()`: the iterator is one past the last byte. -/
def Ctx.is_eof (ctx : Ctx) : Prop := ctx.pos = (ctx.input.length : Int)

instance (ctx : Ctx) : Decidable ctx.is_eof := by unfold Ctx.is_eof; infer_instance

/-- The userinfo percent-encode set of `parse_authority` (line 791). -/
def userinfoEncodeSet : List Nat :=
  [32, 34, 60, 62, 96, 35, 63, 123, 125, 47, 58, 59, 61, 64, 91, 92, 93, 94, 124]

/-- The path percent-encode set of `parse_path` (line 1095). -/
def pathEncodeSet : List Nat := [32, 34, 60, 62, 96, 35, 63, 123, 125]

/-- The query percent-encode set of `parse_query` (line 1129). -/
def queryEncodeSet : List Nat := [32, 34, 35, 60, 62]

/-- The fragment percent-encode set of `parse_fragment` (line 1138). -/
def fragmentEncodeSet : List Nat := [32, 34, 60, 62, 96]

/-- `parse_scheme_start` (lines 561-576). -/
def parse_scheme_start (ctx : Ctx) (c : Nat) : Ctx × url_parse_action :=
  if isAlphaB c then
    ({ ctx with buffer := ctx.buffer ++ [tolowerB c], state := .scheme }, .increment)
  else if ctx.state_override = none then
    ({ ctx with state := .no_scheme, pos := 0 }, .continue_)
  else
    ({ ctx with validation_error := true }, .fail)

/-- `parse_scheme` (lines 578-633). -/
def parse_scheme (ctx : Ctx) (c : Nat) : Ctx × url_parse_action :=
  if isAlnumB c || c = 43 || c = 45 || c = 46 then
    ({ ctx with buffer := ctx.buffer ++ [tolowerB c] }, .increment)
  else if c = 58 then
    if ctx.state_override.isSome ∧
        ((ctx.url.is_special_rec ∧ ¬ is_special ctx.buffer) ∨
         (¬ ctx.url.is_special_rec ∧ is_special ctx.buffer) ∨
         ((ctx.url.includes_credentials ∨ ctx.url.port.isSome) ∧ ctx.buffer = bytes "file") ∨
         (ctx.url.scheme = bytes "file" ∧ (ctx.url.host = none ∨ ctx.url.host = some []))) then
      (ctx, .fail)
    else
      let url1 := { ctx.url with scheme := ctx.buffer }
      let ctx1 := { ctx with url := url1, buffer := [] }
      if url1.scheme = bytes "file" then
        let ve := ctx1.validation_error ||
          ! remaining_starts_with ctx1.input ctx1.pos (bytes "//")
        ({ ctx1 with validation_error := ve, state := .file }, .increment)
      else if url1.is_special_rec ∧ ctx1.base.isSome ∧
          (ctx1.base.getD {}).scheme = url1.scheme then
        ({ ctx1 with state := .special_relative_or_authority }, .increment)
      else if url1.is_special_rec then
        ({ ctx1 with state := .special_authority_slashes }, .increment)
      else if remaining_starts_with ctx1.input ctx1.pos (bytes "/") then
        ({ ctx1 with state := .path_or_authority, pos := ctx1.pos + 1 }, .increment)
      else
        let url2 := { url1 with cannot_be_a_base_url := true, path := url1.path ++ [[]] }
        ({ ctx1 with url := url2, state := .cannot_be_a_base_url_path }, .increment)
  else if ctx.state_override = none then
    ({ ctx with buffer := [], state := .no_scheme, pos := 0 }, .continue_)
  else
    (ctx, .increment)

/-- `parse_no_scheme` (lines 635-657). -/
def parse_no_scheme (ctx : Ctx) (c : Nat) : Ctx × url_parse_action :=
  match ctx.base with
  | none => ({ ctx with validation_error := true }, .fail)
  | some b =>
      if b.cannot_be_a_base_url ∧ c ≠ 35 then
        ({ ctx with validation_error := true }, .fail)
      else if b.cannot_be_a_base_url ∧ c = 35 then
        let url1 := { ctx.url with
          scheme := b.scheme
          path := b.path
          query := b.query
          fragment := some []
          cannot_be_a_base_url := true }
        ({ ctx with url := url1, state := .fragment }, .increment)
      else if b.scheme ≠ bytes "file" then
        ({ ctx with state := .relative, pos := 0 }, .continue_)
      else
        ({ ctx with state := .file, pos := 0 }, .continue_)

/-- `parse_special_relative_or_authority` (lines 659-669). -/
def parse_special_relative_or_authority (ctx : Ctx) (c : Nat) : Ctx × url_parse_action :=
  if c = 47 ∧ remaining_starts_with ctx.input ctx.pos [47] then
    ({ ctx with pos := ctx.pos + 1, state := .special_authority_ignore_slashes }, .increment)
  else
    ({ ctx with validation_error := true, pos := ctx.pos - 1, state := .relative }, .increment)

/-- `parse_path_or_authority` (lines 671-679). -/
def parse_path_or_authority (ctx : Ctx) (c : Nat) : Ctx × url_parse_action :=
  if c = 47 then ({ ctx with state := .authority }, .increment)
  else ({ ctx with state := .path, pos := ctx.pos - 1 }, .increment)

/-- `parse_relative` (lines 681-729). -/
def parse_relative (ctx : Ctx) (c : Nat) : Ctx × url_parse_action :=
  let b := ctx.base.getD {}
  let url1 := { ctx.url with scheme := b.scheme }
  if ctx.is_eof then
    let url2 := { url1 with
      username := b.username
      password := b.password
      host := b.host
      port := b.port
      path := b.path
      query := b.query }
    ({ ctx with url := url2 }, .increment)
  else if c = 47 then
    ({ ctx with url := url1, state := .relative_slash }, .increment)
  else if c = 63 then
    let url2 := { url1 with
      username := b.username
      password := b.password
      host := b.host
      port := b.port
      path := b.path
      query := some [] }
    ({ ctx with url := url2, state := .query }, .increment)
  else if c = 35 then
    let url2 := { url1 with
      username := b.username
      password := b.password
      host := b.host
      port := b.port
      path := b.path
      query := b.query
      fragment := some [] }
    ({ ctx with url := url2, state := .fragment }, .increment)
  else if url1.is_special_rec ∧ c = 92 then
    ({ ctx with url := url1, validation_error := true, state := .relative_slash }, .increment)
  else
    let url2 := { url1 with
      username := b.username
      password := b.password
      host := b.host
      port := b.port
      path := if b.path ≠ [] then b.path.dropLast else b.path }
    ({ ctx with url := url2, state := .path, pos := ctx.pos - 1 }, .increment)

/-- `parse_relative_slash` (lines 731-751). -/
def parse_relative_slash (ctx : Ctx) (c : Nat) : Ctx × url_parse_action :=
  let b := ctx.base.getD {}
  if ctx.url.is_special_rec ∧ (c = 47 ∨ c = 92) then
    let ve := ctx.validation_error || decide (c = 92)
    ({ ctx with validation_error := ve, state := .special_authority_ignore_slashes }, .increment)
  else if c = 47 then
    ({ ctx with state := .authority }, .increment)
  else
    let url1 := { ctx.url with
      username := b.username
      password := b.password
      host := b.host
      port := b.port }
    ({ ctx with url := url1, state := .path, pos := ctx.pos - 1 }, .increment)

/-- `parse_special_authority_slashes` (lines 753-764). -/
def parse_special_authority_slashes (ctx : Ctx) (c : Nat) : Ctx × url_parse_action :=
  if c = 47 ∧ remaining_starts_with ctx.input ctx.pos [47] then
    ({ ctx with pos := ctx.pos + 1, state := .special_authority_ignore_slashes }, .increment)
  else
    let ctx1 := { ctx with validation_error := true, pos := ctx.pos - 1 }
    ({ ctx1 with state := .special_authority_ignore_slashes }, .increment)

/-- `parse_special_authority_ignore_slashes` (lines 766-774). -/
def parse_special_authority_ignore_slashes (ctx : Ctx) (c : Nat) : Ctx × url_parse_action :=
  if c ≠ 47 ∧ c ≠ 92 then
    ({ ctx with pos := ctx.pos - 1, state := .authority }, .increment)
  else
    ({ ctx with validation_error := true }, .increment)

/-- The credential-folding loop of `parse_authority` (lines 784-798): the
first `:` switches from username to password, every other byte is
percent-encoded with the userinfo set into the active component. -/
def authority_credentials :
    List Nat → Bool → List Nat → List Nat → (Bool × List Nat × List Nat)
  | [], flag, user, pass => (flag, user, pass)
  | b :: rest, flag, user, pass =>
      if b = 58 ∧ flag = false then authority_credentials rest true user pass
      else
        let enc := pct_encode_char b userinfoEncodeSet
        if flag then authority_credentials rest flag user (pass ++ enc)
        else authority_credentials rest flag (user ++ enc) pass

/-- `parse_authority` (lines 776-816).  At a terminator the iterator is
rewound to the byte before the start of the buffered run
(`restart_from_buffer`, declared in the absent context header; modelled
from the spec, section 4.6.3: rewind input to the start of the buffer). -/
def parse_authority (ctx : Ctx) (c : Nat) : Ctx × url_parse_action :=
  if c = 64 then
    let buffer1 := if ctx.at_flag then bytes "%40" ++ ctx.buffer else ctx.buffer
    let r := authority_credentials buffer1 ctx.password_token_seen_flag
      ctx.url.username ctx.url.password
    let url1 := { ctx.url with username := r.2.1, password := r.2.2 }
    let ctx1 := { ctx with
      validation_error := true
      at_flag := true
      password_token_seen_flag := r.1
      url := url1
      buffer := [] }
    (ctx1, .increment)
  else if ctx.is_eof ∨ c = 47 ∨ c = 63 ∨ c = 35 ∨ (ctx.url.is_special_rec ∧ c = 92) then
    if ctx.at_flag ∧ ctx.buffer = [] then
      ({ ctx with validation_error := true }, .fail)
    else
      let p1 := ctx.pos - (ctx.buffer.length : Int) - 1
      ({ ctx with pos := p1, state := .host, buffer := [] }, .increment)
  else
    ({ ctx with buffer := ctx.buffer ++ [c] }, .increment)

/-- `parse_hostname` (lines 818-865), serving both the `host` and
`hostname` states. -/
def parse_hostname (ctx : Ctx) (c : Nat) : Ctx × url_parse_action :=
  if ctx.state_override.isSome ∧ ctx.url.scheme = bytes "file" then
    ({ ctx with pos := ctx.pos - 1, state := .file_host }, .increment)
  else if c = 58 ∧ ¬ ctx.square_braces_flag then
    if ctx.buffer = [] then ({ ctx with validation_error := true }, .fail)
    else
      match parse_host ctx.buffer false with
      | none => (ctx, .fail)
      | some h =>
          let url1 := { ctx.url with host := some h }
          let ctx1 := { ctx with url := url1, buffer := [], state := .port }
          if ctx1.state_override = some .hostname then (ctx1, .success)
          else (ctx1, .increment)
  else if ctx.is_eof ∨ c = 47 ∨ c = 63 ∨ c = 35 ∨ (ctx.url.is_special_rec ∧ c = 92) then
    let ctx1 := { ctx with pos := ctx.pos - 1 }
    if ctx1.url.is_special_rec ∧ ctx1.buffer = [] then
      ({ ctx1 with validation_error := true }, .fail)
    else
      match parse_host ctx1.buffer false with
      | none => (ctx1, .fail)
      | some h =>
          let url1 := { ctx1.url with host := some h }
          ({ ctx1 with url := url1, buffer := [], state := .path_start }, .increment)
  else
    let ctx1 :=
      if c = 91 then { ctx with square_braces_flag := true }
      else if c = 93 then { ctx with square_braces_flag := false }
      else ctx
    ({ ctx1 with buffer := ctx1.buffer ++ [c] }, .increment)

/-- `parse_port` (lines 867-903). -/
def parse_port (ctx : Ctx) (c : Nat) : Ctx × url_parse_action :=
  if isDigitB c then
    ({ ctx with buffer := ctx.buffer ++ [c] }, .increment)
  else if ctx.is_eof ∨ c = 47 ∨ c = 63 ∨ c = 35 ∨
      (ctx.url.is_special_rec ∧ c = 92) ∨ ctx.state_override.isSome then
    if ctx.buffer ≠ [] ∧ ¬ is_valid_port ctx.buffer then
      ({ ctx with validation_error := true }, .fail)
    else
      let ctx1 :=
        if ctx.buffer ≠ [] then
          let p := atoiModel ctx.buffer
          let url1 := { ctx.url with
            port := if is_default_port ctx.url.scheme p then none else some p }
          { ctx with url := url1, buffer := [] }
        else ctx
      if ctx1.state_override.isSome then (ctx1, .success)
      else ({ ctx1 with pos := ctx1.pos - 1, state := .path_start }, .increment)
  else
    ({ ctx with validation_error := true }, .fail)

/-- `parse_file` (lines 905-948). -/
def parse_file (ctx : Ctx) (c : Nat) : Ctx × url_parse_action :=
  let ctx := { ctx with url := { ctx.url with scheme := bytes "file" } }
  if c = 47 ∨ c = 92 then
    let ve := ctx.validation_error || decide (c = 92)
    ({ ctx with validation_error := ve, state := .file_slash }, .increment)
  else
    match ctx.base with
    | some b =>
        if b.scheme = bytes "file" then
          if ctx.is_eof then
            let url1 := { ctx.url with host := b.host, path := b.path, query := b.query }
            ({ ctx with url := url1 }, .increment)
          else if c = 63 then
            let url1 := { ctx.url with host := b.host, path := b.path, query := some [] }
            ({ ctx with url := url1, state := .query }, .increment)
          else if c = 35 then
            let url1 := { ctx.url with
              host := b.host
              path := b.path
              query := b.query
              fragment := some [] }
            ({ ctx with url := url1, state := .fragment }, .increment)
          else
            if ¬ is_windows_drive_letter_at ctx.input ctx.pos.toNat then
              let url1 := { ctx.url with
                host := b.host
                path := shorten_path (bytes "file") b.path }
              ({ ctx with url := url1, pos := ctx.pos - 1, state := .path }, .increment)
            else
              let ctx1 := { ctx with validation_error := true, pos := ctx.pos - 1 }
              ({ ctx1 with state := .path }, .increment)
        else
          ({ ctx with pos := ctx.pos - 1, state := .path }, .increment)
    | none =>
        ({ ctx with pos := ctx.pos - 1, state := .path }, .increment)

/-- `parse_file_slash` (lines 950-971). -/
def parse_file_slash (ctx : Ctx) (c : Nat) : Ctx × url_parse_action :=
  if c = 47 ∨ c = 92 then
    let ve := ctx.validation_error || decide (c = 92)
    ({ ctx with validation_error := ve, state := .file_host }, .increment)
  else
    let ctx1 :=
      match ctx.base with
      | some b =>
          if b.scheme = bytes "file" ∧
              ¬ is_windows_drive_letter_at ctx.input ctx.pos.toNat then
            if b.path ≠ [] ∧ is_windows_drive_letter (b.path.headD []) then
              { ctx with url := { ctx.url with path := ctx.url.path ++ [b.path.headD []] } }
            else
              { ctx with url := { ctx.url with host := b.host } }
          else ctx
      | none => ctx
    ({ ctx1 with state := .path, pos := ctx1.pos - 1 }, .increment)

/-- `parse_file_host` (lines 973-1012). -/
def parse_file_host (ctx : Ctx) (c : Nat) : Ctx × url_parse_action :=
  if ctx.is_eof ∨ c = 47 ∨ c = 92 ∨ c = 63 ∨ c = 35 then
    let ctx1 := { ctx with pos := ctx.pos - 1 }
    if ctx1.state_override = none ∧ is_windows_drive_letter ctx1.buffer then
      ({ ctx1 with validation_error := true, state := .path }, .increment)
    else if ctx1.buffer = [] then
      let ctx2 := { ctx1 with url := { ctx1.url with host := some [] } }
      if ctx2.state_override.isSome then (ctx2, .success)
      else ({ ctx2 with state := .path_start }, .increment)
    else
      match parse_host ctx1.buffer (! ctx1.url.is_special_rec) with
      | none => (ctx1, .fail)
      | some h =>
          let h1 := if h = bytes "localhost" then [] else h
          let ctx2 := { ctx1 with url := { ctx1.url with host := some h1 } }
          if ctx2.state_override.isSome then (ctx2, .success)
          else ({ ctx2 with buffer := [], state := .path_start }, .increment)
  else
    ({ ctx with buffer := ctx.buffer ++ [c] }, .increment)

/-- `parse_path_start` (lines 1014-1043). -/
def parse_path_start (ctx : Ctx) (c : Nat) : Ctx × url_parse_action :=
  if ctx.url.is_special_rec then
    let ve := ctx.validation_error || decide (c = 92)
    let ctx1 := { ctx with validation_error := ve, state := .path }
    if c ≠ 47 ∧ c ≠ 92 then ({ ctx1 with pos := ctx1.pos - 1 }, .increment)
    else (ctx1, .increment)
  else if ctx.state_override = none ∧ c = 63 then
    ({ ctx with url := { ctx.url with query := some [] }, state := .query }, .increment)
  else if ctx.state_override = none ∧ c = 35 then
    ({ ctx with url := { ctx.url with fragment := some [] }, state := .fragment }, .increment)
  else if ¬ ctx.is_eof then
    if c ≠ 47 then
      ({ ctx with state := .path, pos := ctx.pos - 1 }, .increment)
    else
      let url1 := { ctx.url with path := ctx.url.path ++ [ctx.buffer] }
      ({ ctx with state := .path, url := url1 }, .increment)
  else
    (ctx, .increment)

/-- The leading-empty-segment popping of `parse_path` for `file` URLs
(lines 1077-1082); the flag records whether any segment was popped. -/
def popLeadingEmpties : List (List Nat) → (List (List Nat) × Bool)
  | [] :: rest =>
      if rest = [] then ([[]], false)
      else ((popLeadingEmpties rest).1, true)
  | p => (p, false)

/-- The segment commit of `parse_path` at a terminator (lines 1053-1072):
the new path together with the new host and whether a validation error was
raised. -/
def path_commit (scheme : List Nat) (path : List (List Nat))
    (host : Option (List Nat)) (buffer : List Nat) (slashTerm : Bool) :
    List (List Nat) × Option (List Nat) × Bool :=
  if is_double_dot_path_segment buffer then
    let p := shorten_path scheme path
    (if ¬ slashTerm then p ++ [[]] else p, host, false)
  else if is_single_dot_path_segment buffer then
    (if ¬ slashTerm then path ++ [[]] else path, host, false)
  else
    if scheme = bytes "file" ∧ path = [] ∧ is_windows_drive_letter buffer then
      let hostClear := host = none ∨ ¬ (host = some [])
      let buf1 := buffer.set 1 58
      (path ++ [buf1], if hostClear then some [] else host, hostClear)
    else
      (path ++ [buffer], host, false)

/-- `parse_path` (lines 1045-1099). -/
def parse_path (ctx : Ctx) (c : Nat) : Ctx × url_parse_action :=
  if ctx.is_eof ∨ c = 47 ∨ (ctx.url.is_special_rec ∧ c = 92) ∨
      (ctx.state_override = none ∧ (c = 63 ∨ c = 35)) then
    let slashTerm := c = 47 ∨ (ctx.url.is_special_rec ∧ c = 92)
    let r := path_commit ctx.url.scheme ctx.url.path ctx.url.host ctx.buffer slashTerm
    let ve1 := ctx.validation_error || decide (ctx.url.is_special_rec ∧ c = 92) || r.2.2
    let url1 := { ctx.url with path := r.1, host := r.2.1 }
    let filePop := url1.scheme = bytes "file" ∧ (ctx.is_eof ∨ c = 63 ∨ c = 35)
    let popped := if filePop then popLeadingEmpties url1.path else (url1.path, false)
    let url2 := { url1 with path := popped.1 }
    let ve2 := ve1 || (decide filePop && popped.2)
    if c = 63 then
      let url3 := { url2 with query := some [] }
      ({ ctx with url := url3, buffer := [], validation_error := ve2, state := .query },
        .increment)
    else if c = 35 then
      let url3 := { url2 with fragment := some [] }
      ({ ctx with url := url3, buffer := [], validation_error := ve2, state := .fragment },
        .increment)
    else
      ({ ctx with url := url2, buffer := [], validation_error := ve2 }, .increment)
  else
    ({ ctx with buffer := ctx.buffer ++ pct_encode_char c pathEncodeSet }, .increment)

/-- `parse_cannot_be_a_base_url` (lines 1101-1122). -/
def parse_cannot_be_a_base_url (ctx : Ctx) (c : Nat) : Ctx × url_parse_action :=
  if c = 63 then
    ({ ctx with url := { ctx.url with query := some [] }, state := .query }, .increment)
  else if c = 35 then
    ({ ctx with url := { ctx.url with fragment := some [] }, state := .fragment }, .increment)
  else
    let ve1 :=
      if ¬ ctx.is_eof ∧ ¬ is_url_code_point c ∧ c ≠ 37 then true
      else if c = 37 ∧ ¬ is_pct_encoded ctx.input ctx.pos then true
      else false
    let path1 :=
      if ¬ ctx.is_eof then
        match ctx.url.path with
        | p0 :: rest => (p0 ++ pct_encode_char c []) :: rest
        | [] => []
      else ctx.url.path
    let ctx1 := { ctx with
      validation_error := ctx.validation_error || ve1
      url := { ctx.url with path := path1 } }
    (ctx1, .increment)

/-- `parse_query` (lines 1124-1132). -/
def parse_query (ctx : Ctx) (c : Nat) : Ctx × url_parse_action :=
  if ctx.state_override = none ∧ c = 35 then
    ({ ctx with url := { ctx.url with fragment := some [] }, state := .fragment }, .increment)
  else if ¬ ctx.is_eof then
    let q1 := some (ctx.url.query.getD [] ++ pct_encode_char c queryEncodeSet)
    ({ ctx with url := { ctx.url with query := q1 } }, .increment)
  else
    (ctx, .increment)

/-- `parse_fragment` (lines 1134-1141).  There is no end-of-input guard: at
end of input the byte read is the NUL terminator and the NUL branch sets
the validation-error flag. -/
def parse_fragment (ctx : Ctx) (c : Nat) : Ctx × url_parse_action :=
  if c = 0 then
    ({ ctx with validation_error := true }, .increment)
  else
    let f1 := some (ctx.url.fragment.getD [] ++ pct_encode_char c fragmentEncodeSet)
    ({ ctx with url := { ctx.url with fragment := f1 } }, .increment)

/-- The state dispatch table of `basic_parse` (url_parse.cpp lines
29-113). -/
def dispatch (ctx : Ctx) (c : Nat) : Ctx × url_parse_action :=
  match ctx.state with
  | .scheme_start => parse_scheme_start ctx c
  | .scheme => parse_scheme ctx c
  | .no_scheme => parse_no_scheme ctx c
  | .special_relative_or_authority => parse_special_relative_or_authority ctx c
  | .path_or_authority => parse_path_or_authority ctx c
  | .relative => parse_relative ctx c
  | .relative_slash => parse_relative_slash ctx c
  | .special_authority_slashes => parse_special_authority_slashes ctx c
  | .special_authority_ignore_slashes => parse_special_authority_ignore_slashes ctx c
  | .authority => parse_authority ctx c
  | .host => parse_hostname ctx c
  | .hostname => parse_hostname ctx c
  | .port => parse_port ctx c
  | .file => parse_file ctx c
  | .file_slash => parse_file_slash ctx c
  | .file_host => parse_file_host ctx c
  | .path_start => parse_path_start ctx c
  | .path => parse_path ctx c
  | .cannot_be_a_base_url_path => parse_cannot_be_a_base_url ctx c
  | .query => parse_query ctx c
  | .fragment => parse_fragment ctx c

/-- Result of one driver iteration. -/
inductive StepRes where
  | next (c : Ctx) | done (c : Ctx) | failed
  deriving Repr, DecidableEq

/-- One iteration of the driver loop of `basic_parse` (url_parse.cpp lines
117-137): invoke the handler with the byte at the iterator (the NUL
terminator at end of input), then act on the returned action. -/
def step (ctx : Ctx) : StepRes :=
  match dispatch ctx (byteAt ctx.input ctx.pos) with
  | (_, .fail) => .failed
  | (c1, .success) => .done c1
  | (c1, .continue_) => .next c1
  | (c1, .increment) =>
      if c1.pos = (c1.input.length : Int) then .done c1
      else .next { c1 with pos := c1.pos + 1 }

/-- Result of a bounded driver run. -/
inductive RunResult where
  | ok (c : Ctx) | failure | outOfFuel
  deriving Repr, DecidableEq

/-- The driver loop, spending one unit of fuel per handler invocation. -/
def run : Nat → Ctx → RunResult
  | 0, _ => .outOfFuel
  | fuel + 1, ctx =>
      match step ctx with
      | .failed => .failure
      | .done c => .ok c
      | .next c => run fuel c

/-- `is_whitespace` (lines 27-33); as in the source the predicate holds on
bytes that are NOT whitespace. -/
def is_whitespace (b : Nat) : Bool :=
  ¬ (isspaceC b || [0, 27, 4, 18, 31, 0].contains b)

/-- The input sanitization of the context constructor (lines 553-555):
trim leading and trailing whitespace, remove interior tab, carriage return
and line feed; the flag records whether anything was removed. -/
def sanitize (input : List Nat) : List Nat × Bool :=
  let s1 := input.dropWhile (fun b => ! is_whitespace b)
  let s2 := (s1.reverse.dropWhile (fun b => ! is_whitespace b)).reverse
  let s3 := s2.filter (fun b => ¬ (b = 9 ∨ b = 13 ∨ b = 10))
  (s3, ¬ (s1 = input ∧ s2 = s1 ∧ s3 = s2))

/-- The freshly constructed parser context (lines 538-559). -/
def mkCtx (input : List Nat) (base url : Option url_record)
    (override : Option url_state) : Ctx :=
  let s := sanitize input
  { input := s.1, base := base, url := url.getD {},
    state := override.getD .scheme_start, state_override := override,
    buffer := [], at_flag := false, square_braces_flag := false,
    password_token_seen_flag := false, validation_error := s.2, pos := 0 }

/-- Handler-invocation budget used to run the driver; claim C9 proves it
sufficient for every input. -/
def parseFuel (n : Nat) : Nat := 4 * n + 102

/-- `details::basic_parse` (url_parse.cpp lines 20-140), returning the
final context on success. -/
def basic_parse (input : List Nat) (base url : Option url_record)
    (override : Option url_state) : RunResult :=
  run (parseFuel input.length) (mkCtx input base url override)

/-- `parse` (url_parse.cpp lines 143-161); the `blob` special-casing of the
wrapper returns the record unchanged on every branch. -/
def parse (input : List Nat) (base : Option url_record) : Option url_record :=
  match basic_parse input base none none with
  | .ok c => some c.url
  | _ => none

/-- The final context of a driver run, exposing the advisory
validation-error flag alongside the record. -/
def parseCtx (input : List Nat) (base : Option url_record) : RunResult :=
  basic_parse input base none none

/-- The context carried into the next driver iteration, if any. -/
def stepNext (c : Ctx) : Option Ctx :=
  match step c with
  | .next c1 => some c1
  | _ => none

/-- The context at the top of the driver loop after `k` iterations; `none`
once the run has stopped. -/
def iterN : Nat → Ctx → Option Ctx
  | 0, c => some c
  | k + 1, c =>
      match stepNext c with
      | some c1 => iterN k c1
      | none => none

/-- The final context of a successful run; a dummy fresh context
otherwise. -/
def okCtx : RunResult → Ctx
  | .ok c => c
  | _ => mkCtx [] none none none

/-- The record of a successful parse; a fresh record otherwise. -/
def someUrl : Option url_record → url_record
  | some u => u
  | none => {}

/-- Modelled from the spec: `serialize` (section 4.5; `url_serialize.cpp`
is absent from the snapshot).  Scheme, colon, authority block when a host
is present (`//` alone for host-less `file`), the path (`/`-joined with a
leading slash, or the single opaque segment), then query and fragment. -/
def serialize (r : url_record) : List Nat :=
  r.scheme ++ [58] ++
  (match r.host with
   | some h =>
       [47, 47] ++
       (if r.includes_credentials then
          r.username ++ (if r.password ≠ [] then [58] ++ r.password else []) ++ [64]
        else []) ++
       h ++
       (match r.port with
        | some p => [58] ++ decimalBytes p
        | none => [])
   | none => if r.scheme = bytes "file" then [47, 47] else []) ++
  (if r.cannot_be_a_base_url then r.path.headD []
   else [47] ++ joinSep 47 r.path) ++
  (match r.query with
   | some q => [63] ++ q
   | none => []) ++
  (match r.fragment with
   | some f => [35] ++ f
   | none => [])

/-! ## Helper lemmas -/

/-- A part that is empty or fails to parse as a number makes the whole
number loop fail. -/
theorem ipv4Numbers_none_of_mem {l : List (List Nat)} {p : List Nat}
    (hmem : p ∈ l) (hbad : p = [] ∨ parse_ipv4_number p = none) :
    ipv4Numbers l = none := by
  induction l with
  | nil => cases hmem
  | cons q rest ih =>
      rcases List.mem_cons.mp hmem with rfl | hmem2
      · rcases hbad with rfl | hb
        · simp [ipv4Numbers]
        · by_cases hq0 : p = []
          · simp [ipv4Numbers, hq0]
          · simp [ipv4Numbers, hq0, hb]
      · by_cases hq0 : q = []
        · simp [ipv4Numbers, hq0]
        · have hrest := ih hmem2
          unfold ipv4Numbers
          rw [if_neg hq0]
          rcases hparse : parse_ipv4_number q with _ | v <;> simp [hrest]

/-! ## Claim theorems -/

/-- Claim C10: an empty part of the dot-split at a non-trailing position
makes `parse_ipv4_address` return the input unchanged (domain fall back),
neither failing nor producing an IPv4 address; only a single trailing
empty part is discarded. -/
theorem c10_nontrailing_empty_part_is_domain (input : List Nat)
    (h : ∃ i, i + 1 < (dotSplit input).length ∧ (dotSplit input).getD i [0] = []) :
    parse_ipv4_address input = some input := by
  obtain ⟨i, hi, hempty⟩ := h
  have hil : i < (dotSplit input).length := by omega
  have hg : (dotSplit input)[i] = [] := by
    rw [List.getD_eq_getElem (dotSplit input) [0] hil] at hempty
    exact hempty
  have hmem : ([] : List Nat) ∈ ipv4Parts input := by
    show ([] : List Nat) ∈
      (if (dotSplit input).getLast! = [] ∧ (dotSplit input).length > 1 then
        (dotSplit input).dropLast else dotSplit input)
    by_cases hc : (dotSplit input).getLast! = [] ∧ (dotSplit input).length > 1
    · rw [if_pos hc]
      have hdl : i < (dotSplit input).dropLast.length := by
        rw [List.length_dropLast]; omega
      have hge : (dotSplit input).dropLast[i] = [] := by
        rw [List.getElem_dropLast, hg]
      exact hge ▸ List.getElem_mem hdl
    · rw [if_neg hc]
      exact hg ▸ List.getElem_mem hil
  have hnums : ipv4Numbers (ipv4Parts input) = none :=
    ipv4Numbers_none_of_mem hmem (Or.inl rfl)
  show (if (ipv4Parts input).length > 4 then some input
    else match ipv4Numbers (ipv4Parts input) with
      | none => some input
      | some numbers =>
          match ipv4_fold numbers with
          | none => none
          | some v => some (ipv4_to_string v)) = some input
  by_cases hlen : (ipv4Parts input).length > 4
  · rw [if_pos hlen]
  · rw [if_neg hlen, hnums]

/-- A part that is empty or fails as a number makes the whole address
parser fall back to the input as a domain string. -/
theorem parse_ipv4_address_fallback {input p : List Nat}
    (hmem : p ∈ ipv4Parts input) (hbad : p = [] ∨ parse_ipv4_number p = none) :
    parse_ipv4_address input = some input := by
  have hnums := ipv4Numbers_none_of_mem hmem hbad
  show (if (ipv4Parts input).length > 4 then some input
    else match ipv4Numbers (ipv4Parts input) with
      | none => some input
      | some numbers =>
          match ipv4_fold numbers with
          | none => none
          | some v => some (ipv4_to_string v)) = some input
  by_cases hlen : (ipv4Parts input).length > 4
  · rw [if_pos hlen]
  · rw [if_neg hlen, hnums]

/-- Claim C3, counterexample: the part `1z` contains `z`, which is not a
digit of the chosen radix 10, yet the input is parsed as the IPv4 address
0.0.0.1 instead of falling back to the domain string `1z` (`std::stoul`
ignores trailing non-digits after at least one digit). -/
theorem c3_counterexample :
    parse_ipv4_address (bytes "1z") = some (bytes "0.0.0.1") ∧
    bytes "0.0.0.1" ≠ bytes "1z" := by
  constructor
  · decide
  · decide

/-- Claim C3 (amended): radix 16 is chosen for a part of length at least 2
starting `0x`/`0X` (prefix stripped), radix 8 for length at least 2
starting `0` (one zero stripped), radix 10 otherwise; a part empty after
stripping has value 0; and the host falls back to a domain string when a
part (after stripping) BEGINS with a byte that is not whitespace, not a
sign, and not a digit of the chosen radix — a non-digit after a first
digit merely terminates the number and is ignored. -/
theorem c3_radix_amended :
    (∀ p : List Nat, 2 ≤ p.length → p.getD 0 0 = 48 → tolowerB (p.getD 1 0) = 120 →
      ipv4_radix_strip p = (16, p.drop 2)) ∧
    (∀ p : List Nat, 2 ≤ p.length → p.getD 0 0 = 48 → tolowerB (p.getD 1 0) ≠ 120 →
      ipv4_radix_strip p = (8, p.drop 1)) ∧
    (∀ p : List Nat, ¬ (2 ≤ p.length ∧ p.getD 0 0 = 48) → ipv4_radix_strip p = (10, p)) ∧
    (∀ p : List Nat, (ipv4_radix_strip p).2 = [] → parse_ipv4_number p = some 0) ∧
    (∀ (input p : List Nat) (b : Nat) (s : List Nat),
      p ∈ ipv4Parts input →
      (ipv4_radix_strip p).2 = b :: s →
      isspaceC b = false → b ≠ 43 → b ≠ 45 →
      digitValInRadix (ipv4_radix_strip p).1 b = none →
      parse_ipv4_address input = some input) := by
  refine ⟨?_, ?_, ?_, ?_, ?_⟩
  · intro p h1 h2 h3
    unfold ipv4_radix_strip
    rw [if_pos ⟨h1, h2, h3⟩]
  · intro p h1 h2 h3
    unfold ipv4_radix_strip
    rw [if_neg (by tauto), if_pos ⟨h1, h2⟩]
  · intro p h1
    unfold ipv4_radix_strip
    rw [if_neg (by tauto), if_neg (by tauto)]
  · intro p h1
    unfold parse_ipv4_number
    rcases hsplit : ipv4_radix_strip p with ⟨r, s⟩
    rw [hsplit] at h1
    simp only at h1
    simp [hsplit, h1]
  · intro input p b s hmem hsplit2 hsp h43 h45 hdig
    rcases hsplit : ipv4_radix_strip p with ⟨r, s0⟩
    rw [hsplit] at hsplit2 hdig
    simp only at hsplit2 hdig
    subst hsplit2
    have hnum : parse_ipv4_number p = none := by
      unfold parse_ipv4_number
      rw [hsplit]
      simp only
      rw [if_neg (by simp)]
      unfold stoulModel
      have hdw : (b :: s).dropWhile isspaceC = b :: s := by
        rw [List.dropWhile_cons, hsp]
        simp
      rw [hdw]
      simp only [if_neg h43, if_neg h45]
      have hb48 : r = 16 → b ≠ 48 := by
        intro hr
        subst hr
        intro hb
        subst hb
        simp [digitValInRadix, isXdigitB, isDigitB] at hdig
      have htake : ∀ rest : List Nat, (takeDigitsInRadix r (b :: rest)).1 = [] := by
        intro rest
        unfold takeDigitsInRadix
        rw [hdig]
      by_cases hr : r = 16
      · subst hr
        match s with
        | [] => simp [takeDigitsInRadix, hdig]
        | [x] => simp [takeDigitsInRadix, hdig]
        | x :: d :: tl =>
            simp only [if_pos rfl]
            have hcond : ¬ (b = 48 ∧ (x = 120 ∨ x = 88) ∧ isXdigitB d = true) := by
              simp [hb48 rfl]
            rw [if_neg hcond]
            simp [htake]
      · rw [if_neg hr]
        simp [htake]
    exact parse_ipv4_address_fallback hmem (Or.inr hnum)

/-- Claim C4, counterexample: on input `4294967296` the single number
equals `256^(5-1)` exactly — it does not exceed it — yet the parse fails. -/
theorem c4_counterexample :
    parse_ipv4_address (bytes "4294967296") = none ∧
    ipv4Numbers (ipv4Parts (bytes "4294967296")) = some [4294967296] ∧
    (ipv4Parts (bytes "4294967296")).length = 1 ∧
    ¬ (4294967296 > 256 ^ (5 - 1)) := by
  refine ⟨by decide, by decide, by decide, by decide⟩

/-- Membership of an index-bounded element in `dropLast`, stated through
`any`. -/
theorem dropLast_any_iff (l : List Nat) (p : Nat → Bool) :
    l.dropLast.any p = true ↔ ∃ i, i < l.length - 1 ∧ p (l.getD i 0) = true := by
  rw [List.any_eq_true]
  constructor
  · rintro ⟨x, hx, hp⟩
    obtain ⟨i, hi, hxi⟩ := List.mem_iff_getElem.mp hx
    have hi2 : i < l.length - 1 := by
      have := hi
      rw [List.length_dropLast] at this
      omega
    refine ⟨i, hi2, ?_⟩
    have hil : i < l.length := by omega
    rw [List.getD_eq_getElem l 0 hil]
    rw [List.getElem_dropLast] at hxi
    rw [hxi]
    exact hp
  · rintro ⟨i, hi, hp⟩
    have hdl : i < l.dropLast.length := by
      rw [List.length_dropLast]; omega
    refine ⟨l.dropLast[i], List.getElem_mem hdl, ?_⟩
    have hil : i < l.length := by omega
    rw [List.getElem_dropLast]
    rw [List.getD_eq_getElem l 0 hil] at hp
    exact hp

/-- Claim C4 (amended): with `numbers` the parsed parts (at most 4), the
fold fails exactly when a number other than the last exceeds 255 or the
last number is greater than OR EQUAL TO `256^(5-n)`; an accepted fold
yields `numbers[n-1] + sum of numbers[i]*256^(3-i)` and the address parser
emits it as four dotted decimals. -/
theorem c4_fold_amended :
    (∀ numbers : List Nat, numbers ≠ [] → numbers.length ≤ 4 →
      (ipv4_fold numbers = none ↔
        (∃ i, i < numbers.length - 1 ∧ 255 < numbers.getD i 0) ∨
        256 ^ (5 - numbers.length) ≤ numbers.getLastD 0)) ∧
    (∀ numbers v, ipv4_fold numbers = some v →
      v = numbers.getLastD 0 +
        ((List.range (numbers.length - 1)).map
          (fun i => numbers.getD i 0 * 256 ^ (3 - i))).sum) ∧
    (∀ input numbers v,
      ipv4Numbers (ipv4Parts input) = some numbers →
      ¬ (ipv4Parts input).length > 4 →
      ipv4_fold numbers = some v →
      parse_ipv4_address input = some (ipv4_to_string v)) ∧
    (∀ v, ipv4_to_string v =
      decimalBytes (v / 2 ^ 24 % 256) ++ [46] ++ decimalBytes (v / 2 ^ 16 % 256) ++ [46] ++
      decimalBytes (v / 2 ^ 8 % 256) ++ [46] ++ decimalBytes (v % 256)) := by
  refine ⟨?_, ?_, ?_, fun v => rfl⟩
  · intro numbers hne hlen
    unfold ipv4_fold
    constructor
    · intro hnone
      by_cases hany : numbers.dropLast.any (fun v => v > 255) = true
      · left
        obtain ⟨i, hi, hp⟩ := (dropLast_any_iff numbers (fun v => v > 255)).mp hany
        exact ⟨i, hi, by simpa using hp⟩
      · right
        rw [if_neg hany] at hnone
        by_cases hge : numbers.getLastD 0 ≥ 256 ^ (5 - numbers.length)
        · exact hge
        · rw [if_neg hge] at hnone
          cases hnone
    · intro hcond
      rcases hcond with ⟨i, hi, hgt⟩ | hge
      · rw [if_pos ((dropLast_any_iff numbers (fun v => v > 255)).mpr
          ⟨i, hi, by simpa using hgt⟩)]
      · by_cases hany : numbers.dropLast.any (fun v => v > 255) = true
        · rw [if_pos hany]
        · rw [if_neg hany, if_pos hge]
  · intro numbers v hsome
    unfold ipv4_fold at hsome
    by_cases hany : numbers.dropLast.any (fun v => v > 255) = true
    · rw [if_pos hany] at hsome; cases hsome
    · rw [if_neg hany] at hsome
      by_cases hge : numbers.getLastD 0 ≥ 256 ^ (5 - numbers.length)
      · rw [if_pos hge] at hsome; cases hsome
      · rw [if_neg hge] at hsome
        exact (Option.some_injective _ hsome).symm
  · intro input numbers v hnums hlen hfold
    show (if (ipv4Parts input).length > 4 then some input
      else match ipv4Numbers (ipv4Parts input) with
        | none => some input
        | some numbers =>
            match ipv4_fold numbers with
            | none => none
            | some v => some (ipv4_to_string v)) = some (ipv4_to_string v)
    rw [if_neg hlen, hnums]
    simp [hfold]

/-- Claim C2: `is_valid_port` compares with `<
std::numeric_limits<uint16_t>::max()`, so the port value 65535 — which the
claim says must be accepted — is rejected and the whole parse fails, while
65534 is accepted and stored. -/
theorem c2_port_65535_rejected :
    parse (bytes "http://a:65535/") none = none ∧
    (parse (bytes "http://a:65534/") none).map url_record.port = some (some 65534) ∧
    is_valid_port (bytes "65535") = false ∧
    is_valid_port (bytes "65534") = true ∧
    digitsVal 10 (bytes "65535") = 65535 := by
  refine ⟨by rfl, by rfl, by decide, by decide, by decide⟩

/-- Claim C1: the round-trip `parse(serialize(r)) = r` fails on the record
of `parse("foo:/.//x")`: that parse succeeds with no host and path
`["", "x"]`, its serialization is `foo://x`, and re-parsing that string
yields a record with host `x` and an empty path. -/
theorem c1_round_trip_violated :
    (parse (bytes "foo:/.//x") none).map url_record.host = some none ∧
    (parse (bytes "foo:/.//x") none).map url_record.path = some [[], bytes "x"] ∧
    (parse (bytes "foo:/.//x") none).map serialize = some (bytes "foo://x") ∧
    ((parse (bytes "foo:/.//x") none).bind
        (fun r => parse (serialize r) none)).map url_record.host =
      some (some (bytes "x")) ∧
    (parse (bytes "foo:/.//x") none).bind (fun r => parse (serialize r) none) ≠
      parse (bytes "foo:/.//x") none := by
  refine ⟨by rfl, by rfl, by rfl, by rfl, by decide⟩

/-- Claim C6, counterexample: the segment `C:x` is not a two-character
Windows drive letter, so by the claim `shorten_path` should pop it, but the
drive-letter test only inspects the first two bytes and the code leaves the
path unchanged. -/
theorem c6_counterexample :
    shorten_path (bytes "file") [bytes "C:x"] = [bytes "C:x"] ∧
    ([bytes "C:x"] : List (List Nat)).dropLast = [] ∧
    (bytes "C:x").length ≠ 2 ∧
    is_windows_drive_letter (bytes "C:x") = true := by
  refine ⟨by decide, by decide, by decide, by decide⟩

/-- Claim C6 (amended): at a path-state terminator (end of input, `/`,
special `\`, or `?`/`#` without override) a double-dot buffer (`..`
case-insensitively, either dot possibly `%2E`) applies `shorten_path` —
a no-op on an empty path and on a `file` URL whose single segment BEGINS
with a Windows drive letter, otherwise popping the last segment — and an
empty segment is pushed exactly when the terminator is neither `/` nor a
special-scheme `\`; for `file` URLs at end of input, `?` or `#` the
leading-empty-segment popping then runs on the committed path. -/
theorem c6_double_dot_amended :
    (∀ (scheme : List Nat) (path : List (List Nat)) (host : Option (List Nat))
        (buffer : List Nat) (slashTerm : Bool),
      is_double_dot_path_segment buffer = true →
      path_commit scheme path host buffer slashTerm =
        ((if slashTerm then shorten_path scheme path
          else shorten_path scheme path ++ [[]]), host, false)) ∧
    (∀ scheme : List Nat, shorten_path scheme [] = []) ∧
    (∀ (path : List (List Nat)), path.length = 1 →
      is_windows_drive_letter (path.headD []) = true →
      shorten_path (bytes "file") path = path) ∧
    (∀ (scheme : List Nat) (path : List (List Nat)), path ≠ [] →
      ¬ (scheme = bytes "file" ∧ path.length = 1 ∧
         is_windows_drive_letter (path.headD []) = true) →
      shorten_path scheme path = path.dropLast) ∧
    (∀ (ctx : Ctx) (c : Nat),
      (ctx.is_eof ∨ c = 47 ∨ (ctx.url.is_special_rec ∧ c = 92) ∨
        (ctx.state_override = none ∧ (c = 63 ∨ c = 35))) →
      (parse_path ctx c).1.url.path =
        (let committed := (path_commit ctx.url.scheme ctx.url.path ctx.url.host
            ctx.buffer (decide (c = 47 ∨ (ctx.url.is_special_rec ∧ c = 92)))).1
         if ctx.url.scheme = bytes "file" ∧ (ctx.is_eof ∨ c = 63 ∨ c = 35) then
           (popLeadingEmpties committed).1
         else committed)) := by
  refine ⟨?_, ?_, ?_, ?_, ?_⟩
  · intro scheme path host buffer slashTerm hdd
    unfold path_commit
    rw [if_pos hdd]
    cases slashTerm <;> simp
  · intro scheme
    unfold shorten_path
    rw [if_pos rfl]
  · intro path hlen hwdl
    unfold shorten_path
    have hne : path ≠ [] := by
      intro hcon
      rw [hcon] at hlen
      cases hlen
    rw [if_neg hne, if_pos ⟨rfl, hlen, hwdl⟩]
  · intro scheme path hne hnot
    unfold shorten_path
    rw [if_neg hne, if_neg hnot]
  · intro ctx c hterm
    unfold parse_path
    rw [if_pos hterm]
    by_cases hfp : ctx.url.scheme = bytes "file" ∧ (ctx.is_eof ∨ c = 63 ∨ c = 35) <;>
      by_cases h63 : c = 63 <;> by_cases h35 : c = 35 <;>
        simp [h63, h35, hfp] <;>
      split <;> rfl

/-- The URL-code-point set exactly as claim C7 words it: ASCII
alphanumerics, the nineteen listed punctuation characters including `;`,
and every code point above 0x7F. -/
def claim_url_code_point (b : Nat) : Bool :=
  isAlnumB b ||
  [33, 36, 38, 39, 40, 41, 42, 43, 44, 45, 46, 47, 58, 59, 61, 63, 64, 95, 126].contains b ||
  decide (b > 127)

/-- Claim C7, counterexample: `;` (byte 59) is a URL code point by the
claim, yet the implementation set lacks it (its literal repeats `/` where
the WHATWG list has `;`), so parsing `foo:;` raises a validation error. -/
theorem c7_counterexample :
    claim_url_code_point 59 = true ∧
    is_url_code_point 59 = false ∧
    (match parseCtx (bytes "foo:;") none with
     | .ok c => some c.validation_error
     | _ => none) = some true := by
  refine ⟨by decide, by decide, by rfl⟩

/-- Claim C7 (amended): in the cannot-be-a-base path state a non-EOF byte
other than `?` and `#` raises a validation error exactly when it is
neither a URL code point nor `%`, or it is `%` not followed by two
hexadecimal digits; the URL code points here are the ASCII alphanumerics
and the literal set without `;` and without bytes above 0x7F; the byte is
percent-encoded with the default (C0-control) set and appended to the
first path segment regardless. -/
theorem c7_cbab_amended (ctx : Ctx) (c : Nat)
    (h1 : ¬ ctx.is_eof) (h2 : c ≠ 63) (h3 : c ≠ 35) :
    ((parse_cannot_be_a_base_url ctx c).1.validation_error = true ↔
      (ctx.validation_error = true ∨ (is_url_code_point c = false ∧ c ≠ 37) ∨
       (c = 37 ∧ is_pct_encoded ctx.input ctx.pos = false))) ∧
    (parse_cannot_be_a_base_url ctx c).1.url.path =
      (match ctx.url.path with
       | p0 :: rest => (p0 ++ pct_encode_char c []) :: rest
       | [] => ([] : List (List Nat))) ∧
    (parse_cannot_be_a_base_url ctx c).2 = url_parse_action.increment := by
  unfold parse_cannot_be_a_base_url
  rw [if_neg h2, if_neg h3]
  refine ⟨?_, ?_, rfl⟩
  · simp only [Bool.or_eq_true]
    constructor
    · rintro (hv | hv)
      · exact Or.inl hv
      · right
        by_cases hucp : ¬ ctx.is_eof ∧ ¬ is_url_code_point c = true ∧ c ≠ 37
        · rw [if_pos hucp] at hv
          exact Or.inl ⟨by simpa using hucp.2.1, hucp.2.2⟩
        · rw [if_neg hucp] at hv
          by_cases hpct : c = 37 ∧ ¬ is_pct_encoded ctx.input ctx.pos = true
          · rw [if_pos hpct] at hv
            exact Or.inr ⟨hpct.1, by simpa using hpct.2⟩
          · rw [if_neg hpct] at hv
            cases hv
    · rintro (hv | ⟨hucp, h37⟩ | ⟨h37, hpct⟩)
      · exact Or.inl hv
      · right
        rw [if_pos ⟨h1, by simp [hucp], h37⟩]
      · right
        by_cases hucp : ¬ ctx.is_eof ∧ ¬ is_url_code_point c = true ∧ c ≠ 37
        · rw [if_pos hucp]
        · rw [if_neg hucp, if_pos ⟨h37, by simp [hpct]⟩]
  · rw [if_pos h1]

/-! ## Witnesses -/

/-- Witness for C10 at the concrete input `1..2`. -/
theorem c10_witness : parse_ipv4_address (bytes "1..2") = some (bytes "1..2") :=
  c10_nontrailing_empty_part_is_domain (bytes "1..2") ⟨1, by decide, by decide⟩

/-- Witness for the amended C3 at concrete parts. -/
theorem c3_radix_amended_witness :
    ipv4_radix_strip (bytes "0x7f") = (16, (bytes "0x7f").drop 2) ∧
    ipv4_radix_strip (bytes "010") = (8, (bytes "010").drop 1) ∧
    ipv4_radix_strip (bytes "9") = (10, bytes "9") ∧
    parse_ipv4_number (bytes "0x") = some 0 ∧
    parse_ipv4_address (bytes "z9") = some (bytes "z9") := by
  refine ⟨?_, ?_, ?_, ?_, ?_⟩
  · exact c3_radix_amended.1 (bytes "0x7f") (by decide) (by decide) (by decide)
  · exact c3_radix_amended.2.1 (bytes "010") (by decide) (by decide) (by decide)
  · exact c3_radix_amended.2.2.1 (bytes "9") (by decide)
  · exact c3_radix_amended.2.2.2.1 (bytes "0x") (by decide)
  · exact c3_radix_amended.2.2.2.2 (bytes "z9") (bytes "z9") 122 [57]
      (by decide) (by decide) (by decide) (by decide) (by decide) (by decide)

/-- Witness for the amended C4 at concrete number lists. -/
theorem c4_fold_amended_witness :
    ipv4_fold [4294967296] = none ∧
    2130706433 = ([127, 1] : List Nat).getLastD 0 +
      ((List.range (([127, 1] : List Nat).length - 1)).map
        (fun i => ([127, 1] : List Nat).getD i 0 * 256 ^ (3 - i))).sum ∧
    parse_ipv4_address (bytes "0x7f.1") = some (ipv4_to_string 2130706433) := by
  refine ⟨?_, ?_, ?_⟩
  · exact (c4_fold_amended.1 [4294967296] (by decide) (by decide)).mpr
      (Or.inr (by decide))
  · exact c4_fold_amended.2.1 [127, 1] 2130706433 (by decide)
  · exact c4_fold_amended.2.2.1 (bytes "0x7f.1") [127, 1] 2130706433
      (by decide) (by decide) (by decide)

/-- A concrete path-state context used by the C6 witness. -/
def c6ctxW : Ctx :=
  { input := bytes "x/", base := none,
    url := { scheme := bytes "http", path := [bytes "a"] },
    state := .path, state_override := none, buffer := bytes "..",
    at_flag := false, square_braces_flag := false,
    password_token_seen_flag := false, validation_error := false, pos := 1 }

/-- Witness for the amended C6 at concrete paths and a concrete context. -/
theorem c6_double_dot_amended_witness :
    path_commit (bytes "http") [bytes "a"] none (bytes "..") false = ([[]], none, false) ∧
    shorten_path (bytes "http") [] = [] ∧
    shorten_path (bytes "file") [bytes "C:"] = [bytes "C:"] ∧
    shorten_path (bytes "http") [bytes "a", bytes "b"] = [bytes "a"] ∧
    (parse_path c6ctxW 47).1.url.path = [] := by
  refine ⟨?_, ?_, ?_, ?_, ?_⟩
  · exact (c6_double_dot_amended.1 (bytes "http") [bytes "a"] none (bytes "..") false
      (by decide)).trans (by decide)
  · exact c6_double_dot_amended.2.1 (bytes "http")
  · exact c6_double_dot_amended.2.2.1 [bytes "C:"] (by decide) (by decide)
  · exact (c6_double_dot_amended.2.2.2.1 (bytes "http") [bytes "a", bytes "b"]
      (by decide) (by decide)).trans (by decide)
  · exact (c6_double_dot_amended.2.2.2.2 c6ctxW 47 (by decide)).trans (by decide)

/-- A concrete cannot-be-a-base context used by the C7 witness. -/
def c7ctxW : Ctx :=
  { input := bytes "foo:;", base := none,
    url := { scheme := bytes "foo", path := [[]], cannot_be_a_base_url := true },
    state := .cannot_be_a_base_url_path, state_override := none, buffer := [],
    at_flag := false, square_braces_flag := false,
    password_token_seen_flag := false, validation_error := false, pos := 4 }

/-- Witness for the amended C7 at the byte `;` in a concrete context. -/
theorem c7_cbab_amended_witness :
    (parse_cannot_be_a_base_url c7ctxW 59).1.validation_error = true ∧
    (parse_cannot_be_a_base_url c7ctxW 59).1.url.path = [[59]] ∧
    (parse_cannot_be_a_base_url c7ctxW 59).2 = url_parse_action.increment := by
  refine ⟨?_, ?_, ?_⟩
  · exact ((c7_cbab_amended c7ctxW 59 (by decide) (by decide) (by decide)).1).mpr
      (Or.inr (Or.inl (by decide)))
  · exact ((c7_cbab_amended c7ctxW 59 (by decide) (by decide) (by decide)).2.1).trans
      (by decide)
  · exact (c7_cbab_amended c7ctxW 59 (by decide) (by decide) (by decide)).2.2

/-! ## The driver invariant and termination measure -/

/-- The `file`-scheme structural property of claim C8. -/
def filePortCred (u : url_record) : Prop :=
  u.scheme = bytes "file" → u.port = none ∧ u.username = [] ∧ u.password = []

/-- The invariant maintained at the top of every driver iteration of a
plain `parse` run (no state override, fresh record). -/
structure Inv (ctx : Ctx) : Prop where
  ov : ctx.state_override = none
  pos0 : 0 ≤ ctx.pos
  posn : ctx.pos ≤ (ctx.input.length : Int)
  nsPos : ctx.state = .no_scheme → ctx.pos = 0
  authBuf : ctx.state = .authority → (ctx.buffer.length : Int) ≤ ctx.pos
  emptyBuf : ctx.state = .no_scheme ∨ ctx.state = .special_relative_or_authority ∨
    ctx.state = .path_or_authority ∨ ctx.state = .relative ∨
    ctx.state = .relative_slash ∨ ctx.state = .special_authority_slashes ∨
    ctx.state = .special_authority_ignore_slashes ∨ ctx.state = .scheme_start →
      ctx.buffer = []
  fpc : filePortCred ctx.url
  preAuth : ctx.state = .scheme_start ∨ ctx.state = .scheme ∨ ctx.state = .no_scheme ∨
    ctx.state = .file ∨ ctx.state = .file_slash ∨ ctx.state = .file_host →
      ctx.url.port = none ∧ ctx.url.username = [] ∧ ctx.url.password = []
  relBase : ctx.state = .special_relative_or_authority ∨ ctx.state = .relative ∨
    ctx.state = .relative_slash →
      ∃ b, ctx.base = some b ∧ ¬ b.scheme = bytes "file"
  notFile : ctx.state = .special_relative_or_authority ∨ ctx.state = .relative_slash ∨
    ctx.state = .path_or_authority ∨ ctx.state = .special_authority_slashes ∨
    ctx.state = .special_authority_ignore_slashes ∨ ctx.state = .authority ∨
    ctx.state = .host ∨ ctx.state = .hostname ∨ ctx.state = .port →
      ¬ ctx.url.scheme = bytes "file"

/-- Rank of a state: strictly decreasing along every non-self state
transition of a plain parse. -/
def stateRank : url_state → Nat
  | .scheme_start => 20
  | .scheme => 19
  | .no_scheme => 18
  | .special_relative_or_authority => 17
  | .relative => 16
  | .relative_slash => 15
  | .special_authority_slashes => 14
  | .special_authority_ignore_slashes => 13
  | .path_or_authority => 12
  | .authority => 11
  | .hostname => 10
  | .host => 9
  | .port => 8
  | .file => 7
  | .file_slash => 6
  | .file_host => 5
  | .path_start => 4
  | .path => 3
  | .cannot_be_a_base_url_path => 2
  | .query => 1
  | .fragment => 0

/-- Input-proportional potential of a state: pays for the reset to position
zero performed by the `no_scheme` route and for the buffer rewind of the
authority state. -/
def stateA : url_state → Nat
  | .scheme_start => 3
  | .scheme => 3
  | .no_scheme => 2
  | .special_relative_or_authority => 2
  | .relative => 2
  | .relative_slash => 2
  | .special_authority_slashes => 2
  | .special_authority_ignore_slashes => 2
  | .path_or_authority => 2
  | _ => 0

/-- Per-remaining-byte weight: the authority state pays double because its
buffered bytes are re-read by the host state after the rewind. -/
def stateB : url_state → Nat
  | .authority => 2
  | _ => 1

/-- Per-buffered-byte weight of the authority state. -/
def stateC : url_state → Nat
  | .authority => 1
  | _ => 0

/-- The termination measure: strictly decreases at every handler
invocation of a plain parse. -/
def phi (ctx : Ctx) : Nat :=
  stateA ctx.state * ctx.input.length +
  stateB ctx.state * ((ctx.input.length : Int) + 1 - ctx.pos).toNat +
  stateC ctx.state * ctx.buffer.length +
  5 * stateRank ctx.state

/-- Everything the induction needs from one driver iteration. -/
def stepOK (ctx : Ctx) : Prop :=
  (∀ c1, step ctx = .next c1 → Inv c1 ∧ phi c1 < phi ctx) ∧
  (∀ c1, step ctx = .done c1 → filePortCred c1.url)

/-- The same obligations, phrased on the handler's output pair. -/
def handlerOK (ctx : Ctx) (p : Ctx × url_parse_action) : Prop :=
  (p.2 = .success → filePortCred p.1.url) ∧
  (p.2 = .continue_ → Inv p.1 ∧ phi p.1 < phi ctx) ∧
  (p.2 = .increment →
    (p.1.pos = (p.1.input.length : Int) → filePortCred p.1.url) ∧
    (¬ p.1.pos = (p.1.input.length : Int) →
       Inv { p.1 with pos := p.1.pos + 1 } ∧ phi { p.1 with pos := p.1.pos + 1 } < phi ctx))

/-- `stepOK` follows from the handler-level obligations. -/
theorem stepOK_of_handlerOK (ctx : Ctx)
    (H : handlerOK ctx (dispatch ctx (byteAt ctx.input ctx.pos))) : stepOK ctx := by
  rcases hd : dispatch ctx (byteAt ctx.input ctx.pos) with ⟨c1, a⟩
  rw [hd] at H
  obtain ⟨Hs, Hc, Hi⟩ := H
  simp only at Hs Hc Hi
  constructor
  · intro c2 h
    unfold step at h
    rw [hd] at h
    cases a with
    | fail => exact StepRes.noConfusion h
    | success => exact StepRes.noConfusion h
    | continue_ =>
        cases h
        exact Hc rfl
    | increment =>
        obtain ⟨Hdone, Hnext⟩ := Hi rfl
        dsimp only at h
        by_cases he : c1.pos = (c1.input.length : Int)
        · rw [if_pos he] at h
          exact StepRes.noConfusion h
        · rw [if_neg he] at h
          cases h
          exact Hnext he
  · intro c2 h
    unfold step at h
    rw [hd] at h
    cases a with
    | fail => exact StepRes.noConfusion h
    | success =>
        cases h
        exact Hs rfl
    | continue_ => exact StepRes.noConfusion h
    | increment =>
        obtain ⟨Hdone, Hnext⟩ := Hi rfl
        dsimp only at h
        by_cases he : c1.pos = (c1.input.length : Int)
        · rw [if_pos he] at h
          cases h
          exact Hdone he
        · rw [if_neg he] at h
          exact StepRes.noConfusion h

/-- A byte read as nonzero lies strictly inside the buffer. -/
theorem byteAt_ne_zero_lt {l : List Nat} {p : Int} (h : byteAt l p ≠ 0) :
    p < (l.length : Int) := by
  unfold byteAt at h
  by_cases hc : 0 ≤ p ∧ p < (l.length : Int)
  · exact hc.2
  · rw [if_neg hc] at h
    cases h rfl

/-- The invariant for contexts in one of the five tail states, whose
state-indexed clauses are all vacuous. -/
theorem Inv_tail (ctx : Ctx) (h1 : ctx.state_override = none) (h2 : 0 ≤ ctx.pos)
    (h3 : ctx.pos ≤ (ctx.input.length : Int)) (h4 : filePortCred ctx.url)
    (h5 : ctx.state = .path_start ∨ ctx.state = .path ∨
      ctx.state = .cannot_be_a_base_url_path ∨ ctx.state = .query ∨
      ctx.state = .fragment) : Inv ctx := by
  refine ⟨h1, h2, h3, ?_, ?_, ?_, h4, ?_, ?_, ?_⟩ <;>
    (intro hcon; rcases h5 with h5 | h5 | h5 | h5 | h5 <;> rw [h5] at hcon <;>
      first
        | (rcases hcon with hcon | hcon | hcon | hcon | hcon | hcon | hcon | hcon | hcon <;>
            exact url_state.noConfusion hcon)
        | exact url_state.noConfusion hcon)

/-- The invariant for contexts in one of the file states with untouched
credentials and port. -/
theorem Inv_file (ctx : Ctx) (h1 : ctx.state_override = none) (h2 : 0 ≤ ctx.pos)
    (h3 : ctx.pos ≤ (ctx.input.length : Int))
    (h4 : ctx.url.port = none ∧ ctx.url.username = [] ∧ ctx.url.password = [])
    (h5 : ctx.state = .file ∨ ctx.state = .file_slash ∨ ctx.state = .file_host) :
    Inv ctx := by
  refine ⟨h1, h2, h3, ?_, ?_, ?_, fun _ => h4, fun _ => h4, ?_, ?_⟩ <;>
    (intro hcon; rcases h5 with h5 | h5 | h5 <;> rw [h5] at hcon <;>
      first
        | (rcases hcon with hcon | hcon | hcon | hcon | hcon | hcon | hcon | hcon | hcon <;>
            exact url_state.noConfusion hcon)
        | exact url_state.noConfusion hcon)

/-- The invariant for contexts in the host or port state of a non-file
URL. -/
theorem Inv_hostport (ctx : Ctx) (h1 : ctx.state_override = none) (h2 : 0 ≤ ctx.pos)
    (h3 : ctx.pos ≤ (ctx.input.length : Int)) (h4 : filePortCred ctx.url)
    (hnf : ¬ ctx.url.scheme = bytes "file")
    (h5 : ctx.state = .host ∨ ctx.state = .port) : Inv ctx := by
  refine ⟨h1, h2, h3, ?_, ?_, ?_, h4, ?_, ?_, fun _ => hnf⟩ <;>
    (intro hcon; rcases h5 with h5 | h5 <;> rw [h5] at hcon <;>
      first
        | (rcases hcon with hcon | hcon | hcon | hcon | hcon | hcon | hcon | hcon | hcon <;>
            exact url_state.noConfusion hcon)
        | exact url_state.noConfusion hcon)

/-- Package the obligations of an increment-returning branch. -/
theorem handlerOK_increment (ctx c1 : Ctx)
    (Hdone : c1.pos = (c1.input.length : Int) → filePortCred c1.url)
    (Hnext : ¬ c1.pos = (c1.input.length : Int) →
       Inv { c1 with pos := c1.pos + 1 } ∧ phi { c1 with pos := c1.pos + 1 } < phi ctx) :
    handlerOK ctx (c1, .increment) := by
  unfold handlerOK
  exact ⟨fun hcon => (nomatch hcon), fun hcon => (nomatch hcon), fun _ => ⟨Hdone, Hnext⟩⟩

/-- Package the obligations of a continue-returning branch. -/
theorem handlerOK_continue (ctx c1 : Ctx) (H1 : Inv c1) (H2 : phi c1 < phi ctx) :
    handlerOK ctx (c1, .continue_) := by
  unfold handlerOK
  exact ⟨fun hcon => (nomatch hcon), fun _ => ⟨H1, H2⟩, fun hcon => nomatch hcon⟩

/-- A fail-returning branch carries no obligations. -/
theorem handlerOK_fail (ctx c1 : Ctx) : handlerOK ctx (c1, .fail) := by
  unfold handlerOK
  exact ⟨fun hcon => (nomatch hcon), fun hcon => (nomatch hcon), fun hcon => nomatch hcon⟩

/-- A success-returning branch only has to keep the file port/credential
property. -/
theorem handlerOK_success (ctx c1 : Ctx) (H : filePortCred c1.url) :
    handlerOK ctx (c1, .success) := by
  unfold handlerOK
  exact ⟨fun _ => H, fun hcon => (nomatch hcon), fun hcon => nomatch hcon⟩

/-- The invariant for contexts in the host, hostname or port state of a
non-file URL. -/
theorem Inv_hhp (ctx : Ctx) (h1 : ctx.state_override = none) (h2 : 0 ≤ ctx.pos)
    (h3 : ctx.pos ≤ (ctx.input.length : Int)) (h4 : filePortCred ctx.url)
    (hnf : ¬ ctx.url.scheme = bytes "file")
    (h5 : ctx.state = .host ∨ ctx.state = .hostname ∨ ctx.state = .port) : Inv ctx := by
  refine ⟨h1, h2, h3, ?_, ?_, ?_, h4, ?_, ?_, fun _ => hnf⟩
  · intro hcon
    rcases h5 with h5 | h5 | h5 <;> rw [h5] at hcon <;> simp at hcon
  · intro hcon
    rcases h5 with h5 | h5 | h5 <;> rw [h5] at hcon <;> simp at hcon
  · intro hcon
    rcases h5 with h5 | h5 | h5 <;> rw [h5] at hcon <;>
      (rcases hcon with h | h | h | h | h | h | h | h <;> simp at h)
  · intro hcon
    rcases h5 with h5 | h5 | h5 <;> rw [h5] at hcon <;>
      (rcases hcon with h | h | h | h | h | h <;> simp at h)
  · intro hcon
    rcases h5 with h5 | h5 | h5 <;> rw [h5] at hcon <;>
      (rcases hcon with h | h | h <;> simp at h)

/-- The invariant for contexts in the scheme state with untouched
credentials and port. -/
theorem Inv_scheme_st (ctx : Ctx) (h1 : ctx.state_override = none) (h2 : 0 ≤ ctx.pos)
    (h3 : ctx.pos ≤ (ctx.input.length : Int))
    (hp : ctx.url.port = none ∧ ctx.url.username = [] ∧ ctx.url.password = [])
    (h5 : ctx.state = .scheme) : Inv ctx := by
  refine ⟨h1, h2, h3, ?_, ?_, ?_, fun _ => hp, fun _ => hp, ?_, ?_⟩
  · intro hcon
    rw [h5] at hcon
    simp at hcon
  · intro hcon
    rw [h5] at hcon
    simp at hcon
  · intro hcon
    rw [h5] at hcon
    rcases hcon with h | h | h | h | h | h | h | h <;> simp at h
  · intro hcon
    rw [h5] at hcon
    rcases hcon with h | h | h <;> simp at h
  · intro hcon
    rw [h5] at hcon
    rcases hcon with h | h | h | h | h | h | h | h | h <;> simp at h

/-- The invariant for contexts in the no-scheme state: position reset to
zero, empty buffer, untouched credentials and port. -/
theorem Inv_no_scheme (ctx : Ctx) (h1 : ctx.state_override = none)
    (hpz : ctx.pos = 0) (h3 : ctx.pos ≤ (ctx.input.length : Int))
    (hbuf : ctx.buffer = [])
    (hp : ctx.url.port = none ∧ ctx.url.username = [] ∧ ctx.url.password = [])
    (h5 : ctx.state = .no_scheme) : Inv ctx := by
  refine ⟨h1, by omega, h3, fun _ => hpz, ?_, fun _ => hbuf, fun _ => hp, fun _ => hp,
    ?_, ?_⟩
  · intro hcon
    rw [h5] at hcon
    simp at hcon
  · intro hcon
    rw [h5] at hcon
    rcases hcon with h | h | h <;> simp at h
  · intro hcon
    rw [h5] at hcon
    rcases hcon with h | h | h | h | h | h | h | h | h <;> simp at h

/-- The invariant for contexts in one of the three relative states: empty
buffer and a non-file base. -/
theorem Inv_relatives (ctx : Ctx) (h1 : ctx.state_override = none) (h2 : 0 ≤ ctx.pos)
    (h3 : ctx.pos ≤ (ctx.input.length : Int)) (h4 : filePortCred ctx.url)
    (hbuf : ctx.buffer = [])
    (hbase : ∃ b, ctx.base = some b ∧ ¬ b.scheme = bytes "file")
    (h5 : ctx.state = .special_relative_or_authority ∨ ctx.state = .relative ∨
      ctx.state = .relative_slash)
    (hnf : ctx.state = .special_relative_or_authority ∨ ctx.state = .relative_slash →
      ¬ ctx.url.scheme = bytes "file") : Inv ctx := by
  refine ⟨h1, h2, h3, ?_, ?_, fun _ => hbuf, h4, ?_, fun _ => hbase, ?_⟩
  · intro hcon
    rcases h5 with h5 | h5 | h5 <;> rw [h5] at hcon <;> simp at hcon
  · intro hcon
    rcases h5 with h5 | h5 | h5 <;> rw [h5] at hcon <;> simp at hcon
  · intro hcon
    rcases h5 with h5 | h5 | h5 <;> rw [h5] at hcon <;>
      (rcases hcon with h | h | h | h | h | h <;> simp at h)
  · intro hcon
    rcases h5 with h5 | h5 | h5
    · exact hnf (Or.inl h5)
    · rw [h5] at hcon
      rcases hcon with h | h | h | h | h | h | h | h | h <;> simp at h
    · exact hnf (Or.inr h5)

/-- The invariant for contexts in the path-or-authority or one of the two
special-authority-slash states: empty buffer, non-file scheme. -/
theorem Inv_preauth2 (ctx : Ctx) (h1 : ctx.state_override = none) (h2 : 0 ≤ ctx.pos)
    (h3 : ctx.pos ≤ (ctx.input.length : Int)) (hbuf : ctx.buffer = [])
    (hnf2 : ¬ ctx.url.scheme = bytes "file")
    (h5 : ctx.state = .path_or_authority ∨ ctx.state = .special_authority_slashes ∨
      ctx.state = .special_authority_ignore_slashes) : Inv ctx := by
  refine ⟨h1, h2, h3, ?_, ?_, fun _ => hbuf, fun hcon => absurd hcon hnf2, ?_, ?_,
    fun _ => hnf2⟩
  · intro hcon
    rcases h5 with h5 | h5 | h5 <;> rw [h5] at hcon <;> simp at hcon
  · intro hcon
    rcases h5 with h5 | h5 | h5 <;> rw [h5] at hcon <;> simp at hcon
  · intro hcon
    rcases h5 with h5 | h5 | h5 <;> rw [h5] at hcon <;>
      (rcases hcon with h | h | h | h | h | h <;> simp at h)
  · intro hcon
    rcases h5 with h5 | h5 | h5 <;> rw [h5] at hcon <;>
      (rcases hcon with h | h | h <;> simp at h)

/-- The invariant for contexts in the authority state: buffered run fits
before the position, non-file scheme. -/
theorem Inv_auth (ctx : Ctx) (h1 : ctx.state_override = none) (h2 : 0 ≤ ctx.pos)
    (h3 : ctx.pos ≤ (ctx.input.length : Int))
    (hab2 : (ctx.buffer.length : Int) ≤ ctx.pos)
    (hnf2 : ¬ ctx.url.scheme = bytes "file")
    (h5 : ctx.state = .authority) : Inv ctx := by
  refine ⟨h1, h2, h3, ?_, fun _ => hab2, ?_, fun hcon => absurd hcon hnf2, ?_, ?_,
    fun _ => hnf2⟩
  · intro hcon
    rw [h5] at hcon
    simp at hcon
  · intro hcon
    rw [h5] at hcon
    rcases hcon with h | h | h | h | h | h | h | h <;> simp at h
  · intro hcon
    rw [h5] at hcon
    rcases hcon with h | h | h | h | h | h <;> simp at h
  · intro hcon
    rw [h5] at hcon
    rcases hcon with h | h | h <;> simp at h

/-- Package an increment-returning branch whose successor state is one of
the five tail states. -/
theorem handlerOK_inc_tail (ctx c1 : Ctx) (hov : c1.state_override = none)
    (hfpc : filePortCred c1.url) (hpos1 : 0 ≤ c1.pos + 1)
    (hle : c1.pos ≤ (c1.input.length : Int))
    (hst : c1.state = .path_start ∨ c1.state = .path ∨
      c1.state = .cannot_be_a_base_url_path ∨ c1.state = .query ∨ c1.state = .fragment)
    (hlt : ¬ c1.pos = (c1.input.length : Int) →
      phi { c1 with pos := c1.pos + 1 } < phi ctx) :
    handlerOK ctx (c1, .increment) := by
  refine handlerOK_increment _ _ (fun _ => hfpc) (fun hne => ⟨?_, hlt hne⟩)
  have hne2 : ¬ c1.pos = (c1.input.length : Int) := hne
  refine Inv_tail _ hov ?_ ?_ hfpc hst
  · show 0 ≤ c1.pos + 1
    omega
  · show c1.pos + 1 ≤ (c1.input.length : Int)
    omega

/-- Package an increment-returning branch whose successor state is one of
the three file states. -/
theorem handlerOK_inc_file (ctx c1 : Ctx) (hov : c1.state_override = none)
    (hp : c1.url.port = none ∧ c1.url.username = [] ∧ c1.url.password = [])
    (hpos1 : 0 ≤ c1.pos + 1) (hle : c1.pos ≤ (c1.input.length : Int))
    (hst : c1.state = .file ∨ c1.state = .file_slash ∨ c1.state = .file_host)
    (hlt : ¬ c1.pos = (c1.input.length : Int) →
      phi { c1 with pos := c1.pos + 1 } < phi ctx) :
    handlerOK ctx (c1, .increment) := by
  refine handlerOK_increment _ _ (fun _ => fun _ => hp) (fun hne => ⟨?_, hlt hne⟩)
  have hne2 : ¬ c1.pos = (c1.input.length : Int) := hne
  refine Inv_file _ hov ?_ ?_ hp hst
  · show 0 ≤ c1.pos + 1
    omega
  · show c1.pos + 1 ≤ (c1.input.length : Int)
    omega

/-- Handler obligations for the fragment state. -/
theorem handlerOK_fragment (ctx : Ctx) (hInv : Inv ctx) (hs : ctx.state = .fragment) :
    handlerOK ctx (parse_fragment ctx (byteAt ctx.input ctx.pos)) := by
  obtain ⟨hov, hpos0, hposn, _, _, _, hfpc, _, _, _⟩ := hInv
  unfold parse_fragment
  split_ifs with h0 <;>
  · refine handlerOK_increment _ _ (fun _ => hfpc) (fun hne => ⟨?_, ?_⟩)
    · have hne2 : ¬ ctx.pos = (ctx.input.length : Int) := hne
      refine Inv_tail _ hov ?_ ?_ hfpc (Or.inr (Or.inr (Or.inr (Or.inr hs))))
      · show 0 ≤ ctx.pos + 1
        omega
      · show ctx.pos + 1 ≤ (ctx.input.length : Int)
        omega
    · have hne2 : ¬ ctx.pos = (ctx.input.length : Int) := hne
      unfold phi
      dsimp only
      rw [hs]
      simp only [stateA, stateB, stateC, stateRank]
      omega

/-- Handler obligations for the query state. -/
theorem handlerOK_query (ctx : Ctx) (hInv : Inv ctx) (hs : ctx.state = .query) :
    handlerOK ctx (parse_query ctx (byteAt ctx.input ctx.pos)) := by
  obtain ⟨hov, hpos0, hposn, _, _, _, hfpc, _, _, _⟩ := hInv
  unfold parse_query
  split_ifs with h1 h2
  · refine handlerOK_increment _ _ (fun _ => hfpc) (fun hne => ⟨?_, ?_⟩)
    · have hne2 : ¬ ctx.pos = (ctx.input.length : Int) := hne
      refine Inv_tail _ hov ?_ ?_ hfpc (Or.inr (Or.inr (Or.inr (Or.inr rfl))))
      · show 0 ≤ ctx.pos + 1
        omega
      · show ctx.pos + 1 ≤ (ctx.input.length : Int)
        omega
    · have hne2 : ¬ ctx.pos = (ctx.input.length : Int) := hne
      unfold phi
      dsimp only
      rw [hs]
      simp only [stateA, stateB, stateC, stateRank]
      omega
  · refine handlerOK_increment _ _ (fun _ => hfpc) (fun hne => ?_)
    have heof : ctx.pos = (ctx.input.length : Int) := h2
    exact absurd heof hne
  · refine handlerOK_increment _ _ (fun _ => hfpc) (fun hne => ⟨?_, ?_⟩)
    · have hne2 : ¬ ctx.pos = (ctx.input.length : Int) := hne
      refine Inv_tail _ hov ?_ ?_ hfpc (Or.inr (Or.inr (Or.inr (Or.inl hs))))
      · show 0 ≤ ctx.pos + 1
        omega
      · show ctx.pos + 1 ≤ (ctx.input.length : Int)
        omega
    · have hne2 : ¬ ctx.pos = (ctx.input.length : Int) := hne
      unfold phi
      dsimp only
      rw [hs]
      simp only [stateA, stateB, stateC, stateRank]
      omega

/-- Handler obligations for the cannot-be-a-base path state. -/
theorem handlerOK_cbab (ctx : Ctx) (hInv : Inv ctx)
    (hs : ctx.state = .cannot_be_a_base_url_path) :
    handlerOK ctx (parse_cannot_be_a_base_url ctx (byteAt ctx.input ctx.pos)) := by
  obtain ⟨hov, hpos0, hposn, _, _, _, hfpc, _, _, _⟩ := hInv
  unfold parse_cannot_be_a_base_url
  split_ifs with h1 h2 <;>
  · refine handlerOK_increment _ _ (fun _ => hfpc) (fun hne => ⟨?_, ?_⟩)
    · have hne2 : ¬ ctx.pos = (ctx.input.length : Int) := hne
      refine Inv_tail _ hov ?_ ?_ hfpc ?_
      · show 0 ≤ ctx.pos + 1
        omega
      · show ctx.pos + 1 ≤ (ctx.input.length : Int)
        omega
      · first
        | exact Or.inr (Or.inr (Or.inr (Or.inl rfl)))
        | exact Or.inr (Or.inr (Or.inr (Or.inr rfl)))
        | exact Or.inr (Or.inr (Or.inl hs))
    · have hne2 : ¬ ctx.pos = (ctx.input.length : Int) := hne
      unfold phi
      dsimp only
      rw [hs]
      simp only [stateA, stateB, stateC, stateRank]
      omega

/-- Handler obligations for the path-or-authority state. -/
theorem handlerOK_path_or_authority (ctx : Ctx) (hInv : Inv ctx)
    (hs : ctx.state = .path_or_authority) :
    handlerOK ctx (parse_path_or_authority ctx (byteAt ctx.input ctx.pos)) := by
  obtain ⟨hov, hpos0, hposn, _, _, hbuf, hfpc, _, _, hnf⟩ := hInv
  have hbe : ctx.buffer = [] := hbuf (Or.inr (Or.inr (Or.inl hs)))
  have hnf2 : ¬ ctx.url.scheme = bytes "file" := hnf (Or.inr (Or.inr (Or.inl hs)))
  unfold parse_path_or_authority
  split_ifs with h1
  · refine handlerOK_increment _ _ (fun _ => hfpc) (fun hne => ⟨?_, ?_⟩)
    · have hne2 : ¬ ctx.pos = (ctx.input.length : Int) := hne
      refine ⟨hov, ?_, ?_, ?_, ?_, ?_, hfpc, ?_, ?_, ?_⟩
      · show 0 ≤ ctx.pos + 1
        omega
      · show ctx.pos + 1 ≤ (ctx.input.length : Int)
        omega
      · intro hcon
        exact absurd hcon (by simp)
      · intro _
        show (ctx.buffer.length : Int) ≤ ctx.pos + 1
        rw [hbe]
        simp
        omega
      · intro hcon
        simp at hcon
      · intro hcon
        simp at hcon
      · intro hcon
        simp at hcon
      · intro _
        exact hnf2
    · have hne2 : ¬ ctx.pos = (ctx.input.length : Int) := hne
      unfold phi
      dsimp only
      rw [hs, hbe]
      simp only [stateA, stateB, stateC, stateRank, List.length_nil]
      omega
  · refine handlerOK_increment _ _ (fun _ => hfpc) (fun hne => ⟨?_, ?_⟩)
    · refine Inv_tail _ hov ?_ ?_ hfpc (Or.inr (Or.inl rfl))
      · show 0 ≤ ctx.pos - 1 + 1
        omega
      · show ctx.pos - 1 + 1 ≤ (ctx.input.length : Int)
        omega
    · unfold phi
      dsimp only
      rw [hs]
      simp only [stateA, stateB, stateC, stateRank]
      omega

/-- Handler obligations for the special-authority-ignore-slashes state. -/
theorem handlerOK_sais (ctx : Ctx) (hInv : Inv ctx)
    (hs : ctx.state = .special_authority_ignore_slashes) :
    handlerOK ctx (parse_special_authority_ignore_slashes ctx (byteAt ctx.input ctx.pos)) := by
  obtain ⟨hov, hpos0, hposn, _, _, hbuf, hfpc, _, _, hnf⟩ := hInv
  have hbe : ctx.buffer = [] :=
    hbuf (Or.inr (Or.inr (Or.inr (Or.inr (Or.inr (Or.inr (Or.inl hs)))))))
  have hnf2 : ¬ ctx.url.scheme = bytes "file" :=
    hnf (Or.inr (Or.inr (Or.inr (Or.inr (Or.inl hs)))))
  unfold parse_special_authority_ignore_slashes
  split_ifs with h1
  · refine handlerOK_increment _ _ (fun _ => hfpc) (fun hne => ⟨?_, ?_⟩)
    · refine ⟨hov, ?_, ?_, ?_, ?_, ?_, hfpc, ?_, ?_, ?_⟩
      · show 0 ≤ ctx.pos - 1 + 1
        omega
      · show ctx.pos - 1 + 1 ≤ (ctx.input.length : Int)
        omega
      · intro hcon
        simp at hcon
      · intro _
        show (ctx.buffer.length : Int) ≤ ctx.pos - 1 + 1
        rw [hbe]
        simp
        omega
      · intro hcon
        simp at hcon
      · intro hcon
        simp at hcon
      · intro hcon
        simp at hcon
      · intro _
        exact hnf2
    · unfold phi
      dsimp only
      rw [hs, hbe]
      simp only [stateA, stateB, stateC, stateRank, List.length_nil]
      omega
  · refine handlerOK_increment _ _ (fun _ => hfpc) (fun hne => ⟨?_, ?_⟩)
    · have hne2 : ¬ ctx.pos = (ctx.input.length : Int) := hne
      refine ⟨hov, ?_, ?_, ?_, ?_, ?_, hfpc, ?_, ?_, ?_⟩
      · show 0 ≤ ctx.pos + 1
        omega
      · show ctx.pos + 1 ≤ (ctx.input.length : Int)
        omega
      · intro hcon
        rw [hs] at hcon
        simp at hcon
      · intro hcon
        rw [hs] at hcon
        simp at hcon
      · intro _
        exact hbe
      · intro hcon
        rw [hs] at hcon
        simp at hcon
      · intro hcon
        rw [hs] at hcon
        rcases hcon with h | h | h <;> simp at h
      · intro _
        exact hnf2
    · have hne2 : ¬ ctx.pos = (ctx.input.length : Int) := hne
      unfold phi
      dsimp only
      rw [hs]
      simp only [stateA, stateB, stateC, stateRank]
      omega

/-- Handler obligations for the special-authority-slashes state. -/
theorem handlerOK_sas (ctx : Ctx) (hInv : Inv ctx)
    (hs : ctx.state = .special_authority_slashes) :
    handlerOK ctx (parse_special_authority_slashes ctx (byteAt ctx.input ctx.pos)) := by
  obtain ⟨hov, hpos0, hposn, _, _, hbuf, hfpc, _, _, hnf⟩ := hInv
  have hbe : ctx.buffer = [] :=
    hbuf (Or.inr (Or.inr (Or.inr (Or.inr (Or.inr (Or.inl hs))))))
  have hnf2 : ¬ ctx.url.scheme = bytes "file" :=
    hnf (Or.inr (Or.inr (Or.inr (Or.inl hs))))
  unfold parse_special_authority_slashes
  split_ifs with h1
  · have hlt : ctx.pos < (ctx.input.length : Int) := by
      refine byteAt_ne_zero_lt ?_
      rw [h1.1]
      simp
    refine handlerOK_increment _ _ (fun _ => hfpc) (fun hne => ⟨?_, ?_⟩)
    · have hne2 : ¬ ctx.pos + 1 = (ctx.input.length : Int) := hne
      refine ⟨hov, ?_, ?_, ?_, ?_, ?_, hfpc, ?_, ?_, ?_⟩
      · show 0 ≤ ctx.pos + 1 + 1
        omega
      · show ctx.pos + 1 + 1 ≤ (ctx.input.length : Int)
        omega
      · intro hcon
        simp at hcon
      · intro hcon
        simp at hcon
      · intro _
        exact hbe
      · intro hcon
        simp at hcon
      · intro hcon
        rcases hcon with h | h | h <;> simp at h
      · intro _
        exact hnf2
    · unfold phi
      dsimp only
      rw [hs]
      simp only [stateA, stateB, stateC, stateRank]
      omega
  · refine handlerOK_increment _ _ (fun _ => hfpc) (fun hne => ⟨?_, ?_⟩)
    · refine ⟨hov, ?_, ?_, ?_, ?_, ?_, hfpc, ?_, ?_, ?_⟩
      · show 0 ≤ ctx.pos - 1 + 1
        omega
      · show ctx.pos - 1 + 1 ≤ (ctx.input.length : Int)
        omega
      · intro hcon
        simp at hcon
      · intro hcon
        simp at hcon
      · intro _
        exact hbe
      · intro hcon
        simp at hcon
      · intro hcon
        rcases hcon with h | h | h <;> simp at h
      · intro _
        exact hnf2
    · unfold phi
      dsimp only
      rw [hs]
      simp only [stateA, stateB, stateC, stateRank]
      omega

/-- Handler obligations for the special-relative-or-authority state. -/
theorem handlerOK_sra (ctx : Ctx) (hInv : Inv ctx)
    (hs : ctx.state = .special_relative_or_authority) :
    handlerOK ctx (parse_special_relative_or_authority ctx (byteAt ctx.input ctx.pos)) := by
  obtain ⟨hov, hpos0, hposn, _, _, hbuf, hfpc, _, hbase, hnf⟩ := hInv
  have hbe : ctx.buffer = [] := hbuf (Or.inr (Or.inl hs))
  have hb2 := hbase (Or.inl hs)
  unfold parse_special_relative_or_authority
  split_ifs with h1
  · have hlt : ctx.pos < (ctx.input.length : Int) := by
      refine byteAt_ne_zero_lt ?_
      rw [h1.1]
      simp
    refine handlerOK_increment _ _ (fun _ => hfpc) (fun hne => ⟨?_, ?_⟩)
    · have hne2 : ¬ ctx.pos + 1 = (ctx.input.length : Int) := hne
      refine ⟨hov, ?_, ?_, ?_, ?_, ?_, hfpc, ?_, ?_, ?_⟩
      · show 0 ≤ ctx.pos + 1 + 1
        omega
      · show ctx.pos + 1 + 1 ≤ (ctx.input.length : Int)
        omega
      · intro hcon
        simp at hcon
      · intro hcon
        simp at hcon
      · intro _
        exact hbe
      · intro hcon
        simp at hcon
      · intro hcon
        rcases hcon with h | h | h <;> simp at h
      · intro _
        exact hnf (Or.inl hs)
    · unfold phi
      dsimp only
      rw [hs]
      simp only [stateA, stateB, stateC, stateRank]
      omega
  · refine handlerOK_increment _ _ (fun _ => hfpc) (fun hne => ⟨?_, ?_⟩)
    · refine ⟨hov, ?_, ?_, ?_, ?_, ?_, hfpc, ?_, ?_, ?_⟩
      · show 0 ≤ ctx.pos - 1 + 1
        omega
      · show ctx.pos - 1 + 1 ≤ (ctx.input.length : Int)
        omega
      · intro hcon
        simp at hcon
      · intro hcon
        simp at hcon
      · intro _
        exact hbe
      · intro hcon
        simp at hcon
      · intro _
        exact hb2
      · intro hcon
        rcases hcon with h | h | h | h | h | h | h | h | h <;> simp at h
    · unfold phi
      dsimp only
      rw [hs]
      simp only [stateA, stateB, stateC, stateRank]
      omega

/-- Handler obligations for the relative-slash state. -/
theorem handlerOK_relative_slash (ctx : Ctx) (hInv : Inv ctx)
    (hs : ctx.state = .relative_slash) :
    handlerOK ctx (parse_relative_slash ctx (byteAt ctx.input ctx.pos)) := by
  obtain ⟨hov, hpos0, hposn, _, _, hbuf, hfpc, _, hbase, hnf⟩ := hInv
  have hbe : ctx.buffer = [] := hbuf (Or.inr (Or.inr (Or.inr (Or.inr (Or.inl hs)))))
  have hnf2 : ¬ ctx.url.scheme = bytes "file" := hnf (Or.inr (Or.inl hs))
  unfold parse_relative_slash
  dsimp only
  split_ifs with h1 h2
  · refine handlerOK_increment _ _ (fun _ => hfpc) (fun hne => ⟨?_, ?_⟩)
    · have hne2 : ¬ ctx.pos = (ctx.input.length : Int) := hne
      refine Inv_preauth2 _ hov ?_ ?_ hbe hnf2 (Or.inr (Or.inr rfl))
      · show 0 ≤ ctx.pos + 1
        omega
      · show ctx.pos + 1 ≤ (ctx.input.length : Int)
        omega
    · have hne2 : ¬ ctx.pos = (ctx.input.length : Int) := hne
      unfold phi
      dsimp only
      rw [hs]
      simp only [stateA, stateB, stateC, stateRank]
      omega
  · refine handlerOK_increment _ _ (fun _ => hfpc) (fun hne => ⟨?_, ?_⟩)
    · have hne2 : ¬ ctx.pos = (ctx.input.length : Int) := hne
      refine Inv_auth _ hov ?_ ?_ ?_ hnf2 rfl
      · show 0 ≤ ctx.pos + 1
        omega
      · show ctx.pos + 1 ≤ (ctx.input.length : Int)
        omega
      · show (ctx.buffer.length : Int) ≤ ctx.pos + 1
        rw [hbe]
        simp
        omega
    · have hne2 : ¬ ctx.pos = (ctx.input.length : Int) := hne
      unfold phi
      dsimp only
      rw [hs, hbe]
      simp only [stateA, stateB, stateC, stateRank, List.length_nil]
      omega
  · refine handlerOK_inc_tail _ _ hov (fun hcon => absurd hcon hnf2) ?_ ?_
      (Or.inr (Or.inl rfl)) (fun hne => ?_)
    · show 0 ≤ ctx.pos - 1 + 1
      omega
    · show ctx.pos - 1 ≤ (ctx.input.length : Int)
      omega
    · unfold phi
      dsimp only
      rw [hs]
      simp only [stateA, stateB, stateC, stateRank]
      omega

/-- Handler obligations for the relative state. -/
theorem handlerOK_relative (ctx : Ctx) (hInv : Inv ctx) (hs : ctx.state = .relative) :
    handlerOK ctx (parse_relative ctx (byteAt ctx.input ctx.pos)) := by
  obtain ⟨hov, hpos0, hposn, _, _, hbuf, hfpc, _, hbase, _⟩ := hInv
  have hbe : ctx.buffer = [] := hbuf (Or.inr (Or.inr (Or.inr (Or.inl hs))))
  obtain ⟨b0, hb0, hbne⟩ := hbase (Or.inr (Or.inl hs))
  have hgetD : ctx.base.getD {} = b0 := by rw [hb0]; rfl
  unfold parse_relative
  dsimp only
  rw [hgetD]
  split_ifs with h1 h2 h3 h4 h5 h6
  · refine handlerOK_increment _ _ (fun _ => fun hcon => absurd hcon hbne)
      (fun hne => ?_)
    exact absurd h1 hne
  · refine handlerOK_increment _ _ (fun _ => fun hcon => absurd hcon hbne)
      (fun hne => ⟨?_, ?_⟩)
    · have hne2 : ¬ ctx.pos = (ctx.input.length : Int) := hne
      refine Inv_relatives _ hov ?_ ?_ (fun hcon => absurd hcon hbne) hbe
        ⟨b0, hb0, hbne⟩ (Or.inr (Or.inr rfl)) (fun _ => hbne)
      · show 0 ≤ ctx.pos + 1
        omega
      · show ctx.pos + 1 ≤ (ctx.input.length : Int)
        omega
    · have hne2 : ¬ ctx.pos = (ctx.input.length : Int) := hne
      unfold phi
      dsimp only
      rw [hs]
      simp only [stateA, stateB, stateC, stateRank]
      omega
  · refine handlerOK_inc_tail _ _ hov (fun hcon => absurd hcon hbne) ?_ ?_
      (Or.inr (Or.inr (Or.inr (Or.inl rfl)))) (fun hne => ?_)
    · show 0 ≤ ctx.pos + 1
      omega
    · show ctx.pos ≤ (ctx.input.length : Int)
      omega
    · have hne2 : ¬ ctx.pos = (ctx.input.length : Int) := hne
      unfold phi
      dsimp only
      rw [hs]
      simp only [stateA, stateB, stateC, stateRank]
      omega
  · refine handlerOK_inc_tail _ _ hov (fun hcon => absurd hcon hbne) ?_ ?_
      (Or.inr (Or.inr (Or.inr (Or.inr rfl)))) (fun hne => ?_)
    · show 0 ≤ ctx.pos + 1
      omega
    · show ctx.pos ≤ (ctx.input.length : Int)
      omega
    · have hne2 : ¬ ctx.pos = (ctx.input.length : Int) := hne
      unfold phi
      dsimp only
      rw [hs]
      simp only [stateA, stateB, stateC, stateRank]
      omega
  · refine handlerOK_increment _ _ (fun _ => fun hcon => absurd hcon hbne)
      (fun hne => ⟨?_, ?_⟩)
    · have hne2 : ¬ ctx.pos = (ctx.input.length : Int) := hne
      refine Inv_relatives _ hov ?_ ?_ (fun hcon => absurd hcon hbne) hbe
        ⟨b0, hb0, hbne⟩ (Or.inr (Or.inr rfl)) (fun _ => hbne)
      · show 0 ≤ ctx.pos + 1
        omega
      · show ctx.pos + 1 ≤ (ctx.input.length : Int)
        omega
    · have hne2 : ¬ ctx.pos = (ctx.input.length : Int) := hne
      unfold phi
      dsimp only
      rw [hs]
      simp only [stateA, stateB, stateC, stateRank]
      omega
  · refine handlerOK_inc_tail _ _ hov (fun hcon => absurd hcon hbne) ?_ ?_
      (Or.inr (Or.inl rfl)) (fun hne => ?_)
    · show 0 ≤ ctx.pos - 1 + 1
      omega
    · show ctx.pos - 1 ≤ (ctx.input.length : Int)
      omega
    · unfold phi
      dsimp only
      rw [hs]
      simp only [stateA, stateB, stateC, stateRank]
      omega
  · refine handlerOK_inc_tail _ _ hov (fun hcon => absurd hcon hbne) ?_ ?_
      (Or.inr (Or.inl rfl)) (fun hne => ?_)
    · show 0 ≤ ctx.pos - 1 + 1
      omega
    · show ctx.pos - 1 ≤ (ctx.input.length : Int)
      omega
    · unfold phi
      dsimp only
      rw [hs]
      simp only [stateA, stateB, stateC, stateRank]
      omega

/-- Handler obligations for the path-start state. -/
theorem handlerOK_path_start (ctx : Ctx) (hInv : Inv ctx)
    (hs : ctx.state = .path_start) :
    handlerOK ctx (parse_path_start ctx (byteAt ctx.input ctx.pos)) := by
  obtain ⟨hov, hpos0, hposn, _, _, _, hfpc, _, _, _⟩ := hInv
  unfold parse_path_start
  dsimp only
  split_ifs with h1 h2 h3 h4 h5 h6 <;>
    first
    | exact handlerOK_increment _ _ (fun _ => hfpc) (fun hne => absurd h5 hne)
    | exact handlerOK_increment _ _ (fun _ => hfpc) (fun hne => absurd h4 hne)
    | (refine handlerOK_inc_tail _ _ hov hfpc ?_ ?_ ?_ (fun hne => ?_)
       · first
         | (show 0 ≤ ctx.pos - 1 + 1
            omega)
         | (show 0 ≤ ctx.pos + 1
            omega)
       · first
         | (show ctx.pos - 1 ≤ (ctx.input.length : Int)
            omega)
         | (show ctx.pos ≤ (ctx.input.length : Int)
            omega)
       · first
         | exact Or.inr (Or.inl rfl)
         | exact Or.inr (Or.inr (Or.inr (Or.inl rfl)))
         | exact Or.inr (Or.inr (Or.inr (Or.inr rfl)))
       · first
         | (have hne2 : ¬ ctx.pos = (ctx.input.length : Int) := hne
            unfold phi
            dsimp only
            rw [hs]
            simp only [stateA, stateB, stateC, stateRank]
            omega)
         | (unfold phi
            dsimp only
            rw [hs]
            simp only [stateA, stateB, stateC, stateRank]
            omega))

/-- Handler obligations for the path state. -/
theorem handlerOK_path (ctx : Ctx) (hInv : Inv ctx) (hs : ctx.state = .path) :
    handlerOK ctx (parse_path ctx (byteAt ctx.input ctx.pos)) := by
  obtain ⟨hov, hpos0, hposn, _, _, _, hfpc, _, _, _⟩ := hInv
  unfold parse_path
  dsimp only
  split_ifs with h1 h2 h3 <;>
  · refine handlerOK_inc_tail _ _ hov hfpc ?_ ?_ ?_ (fun hne => ?_)
    · show 0 ≤ ctx.pos + 1
      omega
    · show ctx.pos ≤ (ctx.input.length : Int)
      omega
    · first
      | exact Or.inr (Or.inr (Or.inr (Or.inl rfl)))
      | exact Or.inr (Or.inr (Or.inr (Or.inr rfl)))
      | exact Or.inr (Or.inl hs)
    · have hne2 : ¬ ctx.pos = (ctx.input.length : Int) := hne
      unfold phi
      dsimp only
      rw [hs]
      simp only [stateA, stateB, stateC, stateRank]
      omega

/-- Handler obligations for the port state. -/
theorem handlerOK_port (ctx : Ctx) (hInv : Inv ctx) (hs : ctx.state = .port) :
    handlerOK ctx (parse_port ctx (byteAt ctx.input ctx.pos)) := by
  obtain ⟨hov, hpos0, hposn, _, _, _, hfpc, _, _, hnf⟩ := hInv
  have hnf2 : ¬ ctx.url.scheme = bytes "file" :=
    hnf (Or.inr (Or.inr (Or.inr (Or.inr (Or.inr (Or.inr (Or.inr (Or.inr hs))))))))
  unfold parse_port
  dsimp only
  split_ifs
  all_goals first
    | exact handlerOK_fail _ _
    | exact handlerOK_success _ _ hfpc
    | exact handlerOK_success _ _ (fun hcon => absurd hcon hnf2)
    | (refine handlerOK_increment _ _ (fun _ => hfpc) (fun hne => ⟨?_, ?_⟩)
       · have hne2 : ¬ ctx.pos = (ctx.input.length : Int) := hne
         refine Inv_hhp _ hov ?_ ?_ hfpc hnf2 (Or.inr (Or.inr hs))
         · show 0 ≤ ctx.pos + 1
           omega
         · show ctx.pos + 1 ≤ (ctx.input.length : Int)
           omega
       · have hne2 : ¬ ctx.pos = (ctx.input.length : Int) := hne
         unfold phi
         dsimp only
         rw [hs]
         simp only [stateA, stateB, stateC, stateRank]
         omega)
    | (refine handlerOK_inc_tail _ _ hov hfpc ?_ ?_ (Or.inl rfl) (fun hne => ?_) <;>
       first
       | (show 0 ≤ ctx.pos - 1 + 1
          omega)
       | (show ctx.pos - 1 ≤ (ctx.input.length : Int)
          omega)
       | (unfold phi
          dsimp only
          rw [hs]
          simp only [stateA, stateB, stateC, stateRank]
          omega))
    | (refine handlerOK_inc_tail _ _ hov (fun hcon => absurd hcon hnf2) ?_ ?_
        (Or.inl rfl) (fun hne => ?_) <;>
       first
       | (show 0 ≤ ctx.pos - 1 + 1
          omega)
       | (show ctx.pos - 1 ≤ (ctx.input.length : Int)
          omega)
       | (unfold phi
          dsimp only
          rw [hs]
          simp only [stateA, stateB, stateC, stateRank]
          omega))

/-- Handler obligations for the file-slash state. -/
theorem handlerOK_file_slash (ctx : Ctx) (hInv : Inv ctx)
    (hs : ctx.state = .file_slash) :
    handlerOK ctx (parse_file_slash ctx (byteAt ctx.input ctx.pos)) := by
  obtain ⟨hov, hpos0, hposn, _, _, _, _, hpre, _, _⟩ := hInv
  have hpre2 := hpre (Or.inr (Or.inr (Or.inr (Or.inr (Or.inl hs)))))
  unfold parse_file_slash
  dsimp only
  split_ifs with h1
  · refine handlerOK_inc_file _ _ hov hpre2 ?_ ?_ (Or.inr (Or.inr rfl))
      (fun hne => ?_)
    · show 0 ≤ ctx.pos + 1
      omega
    · show ctx.pos ≤ (ctx.input.length : Int)
      omega
    · have hne2 : ¬ ctx.pos = (ctx.input.length : Int) := hne
      unfold phi
      dsimp only
      rw [hs]
      simp only [stateA, stateB, stateC, stateRank]
      omega
  · split <;> try split_ifs
    all_goals
      refine handlerOK_inc_tail _ _ hov (fun _ => hpre2) ?_ ?_ (Or.inr (Or.inl rfl))
        (fun hne => ?_) <;>
      first
      | (show 0 ≤ ctx.pos - 1 + 1
         omega)
      | (show ctx.pos - 1 ≤ (ctx.input.length : Int)
         omega)
      | (unfold phi
         dsimp only
         rw [hs]
         simp only [stateA, stateB, stateC, stateRank]
         omega)

/-- Handler obligations for the file-host state. -/
theorem handlerOK_file_host (ctx : Ctx) (hInv : Inv ctx)
    (hs : ctx.state = .file_host) :
    handlerOK ctx (parse_file_host ctx (byteAt ctx.input ctx.pos)) := by
  obtain ⟨hov, hpos0, hposn, _, _, _, _, hpre, _, _⟩ := hInv
  have hpre2 := hpre (Or.inr (Or.inr (Or.inr (Or.inr (Or.inr hs)))))
  unfold parse_file_host
  dsimp only
  split_ifs
  all_goals first
    | exact handlerOK_success _ _ (fun _ => hpre2)
    | (refine handlerOK_inc_file _ _ hov hpre2 ?_ ?_ (Or.inr (Or.inr hs))
        (fun hne => ?_)
       · show 0 ≤ ctx.pos + 1
         omega
       · show ctx.pos ≤ (ctx.input.length : Int)
         omega
       · have hne2 : ¬ ctx.pos = (ctx.input.length : Int) := hne
         unfold phi
         dsimp only
         rw [hs]
         simp only [stateA, stateB, stateC, stateRank]
         omega)
    | (refine handlerOK_inc_tail _ _ hov (fun _ => hpre2) ?_ ?_ ?_ (fun hne => ?_) <;>
       first
       | exact Or.inl rfl
       | exact Or.inr (Or.inl rfl)
       | (show 0 ≤ ctx.pos - 1 + 1
          omega)
       | (show ctx.pos - 1 ≤ (ctx.input.length : Int)
          omega)
       | (unfold phi
          dsimp only
          rw [hs]
          simp only [stateA, stateB, stateC, stateRank]
          omega))
    | (split
       · exact handlerOK_fail _ _
       · split_ifs <;>
           first
           | exact handlerOK_success _ _ (fun _ => hpre2)
           | (refine handlerOK_inc_tail _ _ hov (fun _ => hpre2) ?_ ?_ (Or.inl rfl)
               (fun hne => ?_) <;>
              first
              | (show 0 ≤ ctx.pos - 1 + 1
                 omega)
              | (show ctx.pos - 1 ≤ (ctx.input.length : Int)
                 omega)
              | (unfold phi
                 dsimp only
                 rw [hs]
                 simp only [stateA, stateB, stateC, stateRank]
                 omega)))

/-- Handler obligations for the file state. -/
theorem handlerOK_file (ctx : Ctx) (hInv : Inv ctx) (hs : ctx.state = .file) :
    handlerOK ctx (parse_file ctx (byteAt ctx.input ctx.pos)) := by
  obtain ⟨hov, hpos0, hposn, _, _, _, _, hpre, _, _⟩ := hInv
  have hpre2 := hpre (Or.inr (Or.inr (Or.inr (Or.inl hs))))
  unfold parse_file
  dsimp only
  split_ifs with hA hB hC hD hE
  all_goals first
    | (refine handlerOK_inc_file _ _ hov hpre2 ?_ ?_ (Or.inr (Or.inl rfl))
        (fun hne => ?_)
       · show 0 ≤ ctx.pos + 1
         omega
       · show ctx.pos ≤ (ctx.input.length : Int)
         omega
       · have hne2 : ¬ ctx.pos = (ctx.input.length : Int) := hne
         simp only [phi, hs, stateA, stateB, stateC, stateRank]
         omega)
    | (split
       · split_ifs with hF <;>
           first
           | exact handlerOK_increment _ _ (fun _ => fun _ => hpre2)
               (fun hne => absurd hB hne)
           | (refine handlerOK_inc_tail _ _ hov (fun _ => hpre2) ?_ ?_ ?_
               (fun hne => ?_) <;>
              first
              | exact Or.inr (Or.inl rfl)
              | exact Or.inr (Or.inr (Or.inr (Or.inl rfl)))
              | exact Or.inr (Or.inr (Or.inr (Or.inr rfl)))
              | (show 0 ≤ ctx.pos + 1
                 omega)
              | (show 0 ≤ ctx.pos - 1 + 1
                 omega)
              | (show ctx.pos ≤ (ctx.input.length : Int)
                 omega)
              | (show ctx.pos - 1 ≤ (ctx.input.length : Int)
                 omega)
              | (simp only [phi, hs, stateA, stateB, stateC, stateRank]
                 omega))
       · refine handlerOK_inc_tail _ _ hov (fun _ => hpre2) ?_ ?_
           (Or.inr (Or.inl rfl)) (fun hne => ?_)
         · show 0 ≤ ctx.pos - 1 + 1
           omega
         · show ctx.pos - 1 ≤ (ctx.input.length : Int)
           omega
         · simp only [phi, hs, stateA, stateB, stateC, stateRank]
           omega)

/-- Handler obligations for the authority state. -/
theorem handlerOK_authority (ctx : Ctx) (hInv : Inv ctx)
    (hs : ctx.state = .authority) :
    handlerOK ctx (parse_authority ctx (byteAt ctx.input ctx.pos)) := by
  obtain ⟨hov, hpos0, hposn, _, hab, _, hfpc, _, _, hnf⟩ := hInv
  have hab2 : (ctx.buffer.length : Int) ≤ ctx.pos := hab hs
  have hnf2 : ¬ ctx.url.scheme = bytes "file" :=
    hnf (Or.inr (Or.inr (Or.inr (Or.inr (Or.inr (Or.inl hs))))))
  unfold parse_authority
  dsimp only
  split_ifs with h1 h2 h3 h4
  · refine handlerOK_increment _ _ (fun _ => fun hcon => absurd hcon hnf2)
      (fun hne => ⟨?_, ?_⟩)
    · have hne2 : ¬ ctx.pos = (ctx.input.length : Int) := hne
      refine Inv_auth _ hov ?_ ?_ ?_ hnf2 hs
      · show 0 ≤ ctx.pos + 1
        omega
      · show ctx.pos + 1 ≤ (ctx.input.length : Int)
        omega
      · show (([] : List Nat).length : Int) ≤ ctx.pos + 1
        simp only [List.length_nil]
        omega
    · have hne2 : ¬ ctx.pos = (ctx.input.length : Int) := hne
      unfold phi
      dsimp only
      rw [hs]
      simp only [stateA, stateB, stateC, stateRank, List.length_nil]
      omega
  · refine handlerOK_increment _ _ (fun _ => fun hcon => absurd hcon hnf2)
      (fun hne => ⟨?_, ?_⟩)
    · have hne2 : ¬ ctx.pos = (ctx.input.length : Int) := hne
      refine Inv_auth _ hov ?_ ?_ ?_ hnf2 hs
      · show 0 ≤ ctx.pos + 1
        omega
      · show ctx.pos + 1 ≤ (ctx.input.length : Int)
        omega
      · show (([] : List Nat).length : Int) ≤ ctx.pos + 1
        simp only [List.length_nil]
        omega
    · have hne2 : ¬ ctx.pos = (ctx.input.length : Int) := hne
      unfold phi
      dsimp only
      rw [hs]
      simp only [stateA, stateB, stateC, stateRank, List.length_nil]
      omega
  · exact handlerOK_fail _ _
  · refine handlerOK_increment _ _ (fun _ => hfpc) (fun hne => ⟨?_, ?_⟩)
    · refine Inv_hhp _ hov ?_ ?_ hfpc hnf2 (Or.inl rfl)
      · show 0 ≤ ctx.pos - (ctx.buffer.length : Int) - 1 + 1
        omega
      · show ctx.pos - (ctx.buffer.length : Int) - 1 + 1 ≤ (ctx.input.length : Int)
        omega
    · unfold phi
      dsimp only
      rw [hs]
      simp only [stateA, stateB, stateC, stateRank]
      omega
  · refine handlerOK_increment _ _ (fun _ => hfpc) (fun hne => ⟨?_, ?_⟩)
    · have hne2 : ¬ ctx.pos = (ctx.input.length : Int) := hne
      refine Inv_auth _ hov ?_ ?_ ?_ hnf2 hs
      · show 0 ≤ ctx.pos + 1
        omega
      · show ctx.pos + 1 ≤ (ctx.input.length : Int)
        omega
      · show ((ctx.buffer ++ [byteAt ctx.input ctx.pos]).length : Int) ≤ ctx.pos + 1
        simp only [List.length_append, List.length_cons, List.length_nil]
        omega
    · have hne2 : ¬ ctx.pos = (ctx.input.length : Int) := hne
      unfold phi
      dsimp only
      rw [hs]
      simp only [stateA, stateB, stateC, stateRank, List.length_append,
        List.length_cons, List.length_nil]
      omega

/-- Handler obligations for the host and hostname states, both served by
`parse_hostname`. -/
theorem handlerOK_hostname (ctx : Ctx) (hInv : Inv ctx)
    (hs : ctx.state = .host ∨ ctx.state = .hostname) :
    handlerOK ctx (parse_hostname ctx (byteAt ctx.input ctx.pos)) := by
  obtain ⟨hov, hpos0, hposn, _, _, _, hfpc, _, _, hnf⟩ := hInv
  have hnf2 : ¬ ctx.url.scheme = bytes "file" := by
    rcases hs with h | h
    · exact hnf (Or.inr (Or.inr (Or.inr (Or.inr (Or.inr (Or.inr (Or.inl h)))))))
    · exact hnf (Or.inr (Or.inr (Or.inr (Or.inr (Or.inr (Or.inr (Or.inr (Or.inl h))))))))
  unfold parse_hostname
  dsimp only
  split_ifs with h1 h2 h3 h4 h5 h6 h7
  all_goals first
    | exact absurd h1.2 hnf2
    | exact handlerOK_fail _ _
    | (split
       · exact handlerOK_fail _ _
       · first
         | exact handlerOK_success _ _ hfpc
         | (refine handlerOK_increment _ _ (fun _ => hfpc) (fun hne => ⟨?_, ?_⟩)
            · have hne2 : ¬ ctx.pos = (ctx.input.length : Int) := hne
              refine Inv_hhp _ hov ?_ ?_ hfpc hnf2 (Or.inr (Or.inr rfl))
              · show 0 ≤ ctx.pos + 1
                omega
              · show ctx.pos + 1 ≤ (ctx.input.length : Int)
                omega
            · have hne2 : ¬ ctx.pos = (ctx.input.length : Int) := hne
              rcases hs with h | h <;>
                (simp only [phi, h, stateA, stateB, stateC, stateRank]
                 omega))
         | (refine handlerOK_inc_tail _ _ hov hfpc ?_ ?_ (Or.inl rfl)
             (fun hne => ?_)
            · show 0 ≤ ctx.pos - 1 + 1
              omega
            · show ctx.pos - 1 ≤ (ctx.input.length : Int)
              omega
            · rcases hs with h | h <;>
                (simp only [phi, h, stateA, stateB, stateC, stateRank]
                 omega)))
    | (refine handlerOK_increment _ _ (fun _ => hfpc) (fun hne => ⟨?_, ?_⟩)
       · have hne2 : ¬ ctx.pos = (ctx.input.length : Int) := hne
         refine Inv_hhp _ hov ?_ ?_ hfpc hnf2
           (hs.imp (fun hx => hx) (fun hx => Or.inl hx))
         · show 0 ≤ ctx.pos + 1
           omega
         · show ctx.pos + 1 ≤ (ctx.input.length : Int)
           omega
       · have hne2 : ¬ ctx.pos = (ctx.input.length : Int) := hne
         rcases hs with h | h <;>
           (simp only [phi, h, stateA, stateB, stateC, stateRank, List.length_append,
              List.length_cons, List.length_nil]
            omega))

/-- Handler obligations for the no-scheme state. -/
theorem handlerOK_no_scheme (ctx : Ctx) (hInv : Inv ctx)
    (hs : ctx.state = .no_scheme) :
    handlerOK ctx (parse_no_scheme ctx (byteAt ctx.input ctx.pos)) := by
  obtain ⟨hov, hpos0, hposn, hns, _, hbuf, hfpc, hpre, _, _⟩ := hInv
  have hbe : ctx.buffer = [] := hbuf (Or.inl hs)
  have hpre2 := hpre (Or.inr (Or.inr (Or.inl hs)))
  have hpz : ctx.pos = 0 := hns hs
  unfold parse_no_scheme
  dsimp only
  split
  · exact handlerOK_fail _ _
  · rename_i b hbm
    split_ifs with h1 h2 h3
    · exact handlerOK_fail _ _
    · refine handlerOK_inc_tail _ _ hov (fun _ => hpre2) ?_ ?_
        (Or.inr (Or.inr (Or.inr (Or.inr rfl)))) (fun hne => ?_)
      · show 0 ≤ ctx.pos + 1
        omega
      · show ctx.pos ≤ (ctx.input.length : Int)
        omega
      · unfold phi
        dsimp only
        rw [hs]
        simp only [stateA, stateB, stateC, stateRank]
        omega
    · refine handlerOK_continue _ _ ?_ ?_
      · refine Inv_relatives _ hov ?_ ?_ hfpc hbe ⟨b, hbm, h3⟩
          (Or.inr (Or.inl rfl)) ?_
        · show (0 : Int) ≤ 0
          omega
        · show (0 : Int) ≤ (ctx.input.length : Int)
          omega
        · intro hcon
          rcases hcon with h | h <;> simp at h
      · unfold phi
        dsimp only
        rw [hs]
        simp only [stateA, stateB, stateC, stateRank]
        omega
    · refine handlerOK_continue _ _ ?_ ?_
      · refine Inv_file _ hov ?_ ?_ hpre2 (Or.inl rfl)
        · show (0 : Int) ≤ 0
          omega
        · show (0 : Int) ≤ (ctx.input.length : Int)
          omega
      · unfold phi
        dsimp only
        rw [hs]
        simp only [stateA, stateB, stateC, stateRank]
        omega

/-- Handler obligations for the scheme-start state. -/
theorem handlerOK_scheme_start (ctx : Ctx) (hInv : Inv ctx)
    (hs : ctx.state = .scheme_start) :
    handlerOK ctx (parse_scheme_start ctx (byteAt ctx.input ctx.pos)) := by
  obtain ⟨hov, hpos0, hposn, _, _, hbuf, hfpc, hpre, _, _⟩ := hInv
  have hbe : ctx.buffer = [] :=
    hbuf (Or.inr (Or.inr (Or.inr (Or.inr (Or.inr (Or.inr (Or.inr hs)))))))
  have hpre2 := hpre (Or.inl hs)
  unfold parse_scheme_start
  split_ifs with h1
  · refine handlerOK_increment _ _ (fun _ => hfpc) (fun hne => ⟨?_, ?_⟩)
    · have hne2 : ¬ ctx.pos = (ctx.input.length : Int) := hne
      refine Inv_scheme_st _ hov ?_ ?_ hpre2 rfl
      · show 0 ≤ ctx.pos + 1
        omega
      · show ctx.pos + 1 ≤ (ctx.input.length : Int)
        omega
    · have hne2 : ¬ ctx.pos = (ctx.input.length : Int) := hne
      unfold phi
      dsimp only
      rw [hs]
      simp only [stateA, stateB, stateC, stateRank]
      omega
  · refine handlerOK_continue _ _ ?_ ?_
    · refine Inv_no_scheme _ hov rfl ?_ hbe hpre2 rfl
      show (0 : Int) ≤ (ctx.input.length : Int)
      omega
    · unfold phi
      dsimp only
      rw [hs]
      simp only [stateA, stateB, stateC, stateRank]
      omega

/-- Handler obligations for the scheme state. -/
theorem handlerOK_scheme (ctx : Ctx) (hInv : Inv ctx) (hs : ctx.state = .scheme) :
    handlerOK ctx (parse_scheme ctx (byteAt ctx.input ctx.pos)) := by
  obtain ⟨hov, hpos0, hposn, _, _, _, hfpc, hpre, _, _⟩ := hInv
  have hpre2 := hpre (Or.inr (Or.inl hs))
  unfold parse_scheme
  dsimp only
  split_ifs with g1 g2 g3 g4 g5 g6 g7 g8
  · refine handlerOK_increment _ _ (fun _ => hfpc) (fun hne => ⟨?_, ?_⟩)
    · have hne2 : ¬ ctx.pos = (ctx.input.length : Int) := hne
      refine Inv_scheme_st _ hov ?_ ?_ hpre2 hs
      · show 0 ≤ ctx.pos + 1
        omega
      · show ctx.pos + 1 ≤ (ctx.input.length : Int)
        omega
    · have hne2 : ¬ ctx.pos = (ctx.input.length : Int) := hne
      unfold phi
      dsimp only
      rw [hs]
      simp only [stateA, stateB, stateC, stateRank, List.length_append,
        List.length_cons, List.length_nil]
      omega
  · exact handlerOK_fail _ _
  · refine handlerOK_inc_file _ _ hov hpre2 ?_ ?_ (Or.inl rfl) (fun hne => ?_)
    · show 0 ≤ ctx.pos + 1
      omega
    · show ctx.pos ≤ (ctx.input.length : Int)
      omega
    · have hne2 : ¬ ctx.pos = (ctx.input.length : Int) := hne
      unfold phi
      dsimp only
      rw [hs]
      simp only [stateA, stateB, stateC, stateRank, List.length_nil]
      omega
  · obtain ⟨hsp5, hbs5, hsch5⟩ := g5
    obtain ⟨b, hb⟩ := Option.isSome_iff_exists.mp hbs5
    rw [hb] at hsch5
    simp only [Option.getD_some] at hsch5
    have hbne : ¬ b.scheme = bytes "file" := by
      rw [hsch5]
      exact g4
    refine handlerOK_increment _ _ (fun _ => fun hcon => absurd hcon g4)
      (fun hne => ⟨?_, ?_⟩)
    · have hne2 : ¬ ctx.pos = (ctx.input.length : Int) := hne
      refine Inv_relatives _ hov ?_ ?_ (fun hcon => absurd hcon g4) rfl
        ⟨b, hb, hbne⟩ (Or.inl rfl) (fun _ => g4)
      · show 0 ≤ ctx.pos + 1
        omega
      · show ctx.pos + 1 ≤ (ctx.input.length : Int)
        omega
    · have hne2 : ¬ ctx.pos = (ctx.input.length : Int) := hne
      unfold phi
      dsimp only
      rw [hs]
      simp only [stateA, stateB, stateC, stateRank, List.length_nil]
      omega
  · refine handlerOK_increment _ _ (fun _ => fun hcon => absurd hcon g4)
      (fun hne => ⟨?_, ?_⟩)
    · have hne2 : ¬ ctx.pos = (ctx.input.length : Int) := hne
      refine Inv_preauth2 _ hov ?_ ?_ rfl g4 (Or.inr (Or.inl rfl))
      · show 0 ≤ ctx.pos + 1
        omega
      · show ctx.pos + 1 ≤ (ctx.input.length : Int)
        omega
    · have hne2 : ¬ ctx.pos = (ctx.input.length : Int) := hne
      unfold phi
      dsimp only
      rw [hs]
      simp only [stateA, stateB, stateC, stateRank, List.length_nil]
      omega
  · have hlt : ctx.pos < (ctx.input.length : Int) := by
      refine byteAt_ne_zero_lt ?_
      rw [g2]
      decide
    refine handlerOK_increment _ _ (fun _ => fun hcon => absurd hcon g4)
      (fun hne => ⟨?_, ?_⟩)
    · have hne2 : ¬ ctx.pos + 1 = (ctx.input.length : Int) := hne
      refine Inv_preauth2 _ hov ?_ ?_ rfl g4 (Or.inl rfl)
      · show 0 ≤ ctx.pos + 1 + 1
        omega
      · show ctx.pos + 1 + 1 ≤ (ctx.input.length : Int)
        omega
    · unfold phi
      dsimp only
      rw [hs]
      simp only [stateA, stateB, stateC, stateRank, List.length_nil]
      omega
  · refine handlerOK_inc_tail _ _ hov (fun hcon => absurd hcon g4) ?_ ?_
      (Or.inr (Or.inr (Or.inl rfl))) (fun hne => ?_)
    · show 0 ≤ ctx.pos + 1
      omega
    · show ctx.pos ≤ (ctx.input.length : Int)
      omega
    · unfold phi
      dsimp only
      rw [hs]
      simp only [stateA, stateB, stateC, stateRank, List.length_nil]
      omega
  · refine handlerOK_continue _ _ ?_ ?_
    · refine Inv_no_scheme _ hov rfl ?_ rfl hpre2 rfl
      show (0 : Int) ≤ (ctx.input.length : Int)
      omega
    · unfold phi
      dsimp only
      rw [hs]
      simp only [stateA, stateB, stateC, stateRank, List.length_nil]
      omega

/-- Every invariant-satisfying context makes a sound driver step: the
invariant is preserved and the measure strictly decreases on `next`, and a
`done` context keeps the file port/credential property. -/
theorem stepOK_of_Inv (ctx : Ctx) (hInv : Inv ctx) : stepOK ctx := by
  refine stepOK_of_handlerOK _ ?_
  unfold dispatch
  split <;> rename_i hst
  · exact handlerOK_scheme_start ctx hInv hst
  · exact handlerOK_scheme ctx hInv hst
  · exact handlerOK_no_scheme ctx hInv hst
  · exact handlerOK_sra ctx hInv hst
  · exact handlerOK_path_or_authority ctx hInv hst
  · exact handlerOK_relative ctx hInv hst
  · exact handlerOK_relative_slash ctx hInv hst
  · exact handlerOK_sas ctx hInv hst
  · exact handlerOK_sais ctx hInv hst
  · exact handlerOK_authority ctx hInv hst
  · exact handlerOK_hostname ctx hInv (Or.inl hst)
  · exact handlerOK_hostname ctx hInv (Or.inr hst)
  · exact handlerOK_port ctx hInv hst
  · exact handlerOK_file ctx hInv hst
  · exact handlerOK_file_slash ctx hInv hst
  · exact handlerOK_file_host ctx hInv hst
  · exact handlerOK_path_start ctx hInv hst
  · exact handlerOK_path ctx hInv hst
  · exact handlerOK_cbab ctx hInv hst
  · exact handlerOK_query ctx hInv hst
  · exact handlerOK_fragment ctx hInv hst

/-- A run from an invariant-satisfying context with more fuel than its
measure neither exhausts the fuel nor ends in a context violating the file
port/credential property. -/
theorem run_sound (fuel : Nat) : ∀ ctx : Ctx, Inv ctx → phi ctx < fuel →
    run fuel ctx ≠ RunResult.outOfFuel ∧
    ∀ c, run fuel ctx = RunResult.ok c → filePortCred c.url := by
  induction fuel with
  | zero =>
      intro ctx _ hlt
      omega
  | succ n ih =>
      intro ctx hInv hlt
      obtain ⟨hnext, hdone⟩ := stepOK_of_Inv ctx hInv
      have hrun : run (n + 1) ctx = match step ctx with
          | .failed => RunResult.failure
          | .done c => RunResult.ok c
          | .next c => run n c := rfl
      cases hs : step ctx with
      | failed =>
          rw [hrun, hs]
          exact ⟨fun hcon => RunResult.noConfusion hcon,
            fun c hc => RunResult.noConfusion hc⟩
      | done c =>
          rw [hrun, hs]
          refine ⟨fun hcon => RunResult.noConfusion hcon, fun c2 hc => ?_⟩
          have hc2 : c = c2 := by injection hc
          rw [← hc2]
          exact hdone c hs
      | next c =>
          rw [hrun, hs]
          obtain ⟨hInv2, hphi⟩ := hnext c hs
          exact ih c hInv2 (by omega)

/-- A freshly constructed context for a plain parse satisfies the
invariant. -/
theorem Inv_mkCtx (input : List Nat) (base : Option url_record) :
    Inv (mkCtx input base none none) := by
  unfold mkCtx
  dsimp only
  refine ⟨rfl, ?_, ?_, ?_, ?_, fun _ => rfl, fun _ => ⟨rfl, rfl, rfl⟩,
    fun _ => ⟨rfl, rfl, rfl⟩, ?_, ?_⟩
  · show (0 : Int) ≤ 0
    omega
  · show (0 : Int) ≤ ((sanitize input).1.length : Int)
    omega
  · intro hcon
    simp at hcon
  · intro hcon
    simp at hcon
  · intro hcon
    rcases hcon with h | h | h <;> simp at h
  · intro hcon
    rcases hcon with h | h | h | h | h | h | h | h | h <;> simp at h

/-- Sanitization never lengthens the input. -/
theorem sanitize_length_le (input : List Nat) :
    (sanitize input).1.length ≤ input.length := by
  unfold sanitize
  dsimp only
  refine le_trans (List.length_filter_le _ _) ?_
  rw [List.length_reverse]
  refine le_trans (List.dropWhile_suffix _).length_le ?_
  rw [List.length_reverse]
  exact (List.dropWhile_suffix _).length_le

/-- The initial measure is below the fuel budget of `basic_parse`. -/
theorem phi_mkCtx_lt (input : List Nat) (base : Option url_record) :
    phi (mkCtx input base none none) < parseFuel input.length := by
  have hsl := sanitize_length_le input
  unfold phi mkCtx parseFuel
  dsimp only
  simp only [Option.getD_none, stateA, stateB, stateC, stateRank, List.length_nil]
  omega

/-- The invariant is preserved along the driver iteration chain. -/
theorem Inv_iterN : ∀ (k : Nat) (c0 c : Ctx), Inv c0 → iterN k c0 = some c → Inv c := by
  intro k
  induction k with
  | zero =>
      intro c0 c h0 h
      have hc : c0 = c := by injection h
      rw [← hc]
      exact h0
  | succ n ih =>
      intro c0 c h0 h
      have hred : iterN (n + 1) c0 = match step c0 with
          | .next c1 => iterN n c1
          | .done c1 => none
          | .failed => none := by
        show (match stepNext c0 with
          | some c1 => iterN n c1
          | none => none) = _
        unfold stepNext
        cases step c0 <;> rfl
      rw [hred] at h
      cases hs : step c0 with
      | failed =>
          rw [hs] at h
          exact Option.noConfusion h
      | done c1 =>
          rw [hs] at h
          exact Option.noConfusion h
      | next c1 =>
          rw [hs] at h
          exact ih c1 c ((stepOK_of_Inv c0 h0).1 c1 hs).1 h

/-- C5: REFUTED as stated.  The driver does not present end-of-input as a
distinct sentinel: it reads the byte at index `len(input)` - the NUL
string terminator, modelled by `byteAt` returning 0 there - and hands it
to the handler.  The fragment handler cannot tell this terminator from an
embedded NUL byte and sets the validation-error flag, observable on the
clean input "foo:#": the parse succeeds with an empty fragment but
`validation_error = true`. -/
theorem c5_counterexample :
    (bytes "foo:#").length = 5 ∧
    byteAt (bytes "foo:#") 5 = 0 ∧
    parseCtx (bytes "foo:#") none =
      RunResult.ok (okCtx (parseCtx (bytes "foo:#") none)) ∧
    (okCtx (parseCtx (bytes "foo:#") none)).url.fragment = some [] ∧
    (okCtx (parseCtx (bytes "foo:#") none)).validation_error = true :=
  ⟨by rfl, by rfl, by rfl, by rfl, by rfl⟩

/-- C5 (amended): what does hold is positional safety: at the top of every
driver iteration of a plain parse the position lies in `[0, len]`, so the
handler reads either an input byte or the NUL terminator at index `len`,
never beyond it. -/
theorem c5_amended (input : List Nat) (base : Option url_record) (k : Nat) (c : Ctx)
    (h : iterN k (mkCtx input base none none) = some c) :
    0 ≤ c.pos ∧ c.pos ≤ (c.input.length : Int) := by
  have hInv := Inv_iterN k (mkCtx input base none none) c (Inv_mkCtx input base) h
  exact ⟨hInv.pos0, hInv.posn⟩

/-- Witness for the amended C5 after one driver iteration on "ab". -/
theorem c5_amended_witness :
    ∃ c, iterN 1 (mkCtx (bytes "ab") none none none) = some c ∧
      0 ≤ c.pos ∧ c.pos ≤ (c.input.length : Int) :=
  ⟨_, rfl, c5_amended (bytes "ab") none 1 _ rfl⟩

/-- C8: for every successful parse, a record with scheme "file" has no
port and empty username and password. -/
theorem c8_file_no_port_cred (input : List Nat) (base : Option url_record)
    (u : url_record) (h : parse input base = some u)
    (hf : u.scheme = bytes "file") :
    u.port = none ∧ u.username = [] ∧ u.password = [] := by
  unfold parse at h
  cases hb : basic_parse input base none none with
  | ok c =>
      rw [hb] at h
      have hcu : c.url = u := by injection h
      rw [← hcu] at hf ⊢
      unfold basic_parse at hb
      exact (run_sound (parseFuel input.length) (mkCtx input base none none)
        (Inv_mkCtx input base) (phi_mkCtx_lt input base)).2 c hb hf
  | failure =>
      rw [hb] at h
      exact Option.noConfusion h
  | outOfFuel =>
      rw [hb] at h
      exact Option.noConfusion h

/-- Witness for C8 on the concrete parse of "file:///C:/x". -/
theorem c8_file_no_port_cred_witness :
    parse (bytes "file:///C:/x") none =
      some (someUrl (parse (bytes "file:///C:/x") none)) ∧
    (someUrl (parse (bytes "file:///C:/x") none)).scheme = bytes "file" ∧
    ((someUrl (parse (bytes "file:///C:/x") none)).port = none ∧
     (someUrl (parse (bytes "file:///C:/x") none)).username = [] ∧
     (someUrl (parse (bytes "file:///C:/x") none)).password = []) :=
  ⟨by rfl, by rfl,
   c8_file_no_port_cred (bytes "file:///C:/x") none _ (by rfl) (by rfl)⟩

/-- C9: for every input and base, the parser terminates with success or
failure within the budget of `4*len(input) + 102` handler invocations: the
fueled driver never runs out. -/
theorem c9_terminates (input : List Nat) (base : Option url_record) :
    basic_parse input base none none ≠ RunResult.outOfFuel := by
  unfold basic_parse
  exact (run_sound (parseFuel input.length) (mkCtx input base none none)
    (Inv_mkCtx input base) (phi_mkCtx_lt input base)).1

end UrlVerify
